import Mathlib

/-!
# KeePassHttp bridge service and USB device listener

A shallow embedding of `src/http/Service.cpp`, `src/gui/osutils/DeviceListener.cpp` and
`src/gui/osutils/nixutils/DeviceListenerLibUsb.cpp`, followed by the properties of the
specification that were checked against it.

Conventions of the embedding.

* A `QString` is the list of its characters; `toLower` is the ASCII lower-casing.
* Pointers to entries and groups are indices into the arenas of the `Database`.
* Calls that leave the program for the user (dialogs) take the user's answer as an
  argument and append what was shown to a log.
* A `none` result of an operation that the source writes without a check stands for
  the dereference of a null pointer.
-/

namespace KeePassHttp

/-! ## Strings -/

/-- A QString, as the list of its characters. -/
abbrev QString := List Char

/-- The QString with the characters of a literal. -/
def qs (s : String) : QString := s.toList

/-- The test `s.contains(sub)` of QString with the default case sensitivity: `sub`
occurs in `s` as a contiguous piece (the empty string occurs in every string). -/
def qContains (s sub : QString) : Bool :=
  s.tails.any (fun t => sub.isPrefixOf t)

/-- The function `s.toLower()`. -/
def toLower (s : QString) : QString := s.map Char.toLower

/-- The function `s.indexOf(c)`: position of the first occurrence, `-1` when absent. -/
def indexOf (s : QString) (c : Char) : Int :=
  if c ∈ s then (s.indexOf c : Nat) else -1

/-- The function `s.mid(pos)` for a position inside the string. -/
def mid (s : QString) (pos : Int) : QString := s.drop pos.toNat

/-! ## Entries and their permission record -/

/-- Modelled from the spec: the class `EntryConfig` (its header and implementation are
not among the sources). Section 3 gives it two host sets and an optional realm; an
unset realm is the empty string. -/
structure EntryConfig where
  allowedHosts : List QString := []
  deniedHosts : List QString := []
  realm : QString := []
deriving DecidableEq, Repr, Inhabited

/-- The value of an entry attribute. The permission record is kept "as a serialized
blob on a reserved attribute"; the blob is represented by the record it decodes to,
and a plain text under that key is a blob that does not decode. -/
inductive AttrValue where
  | text (s : QString)
  | blob (c : EntryConfig)
deriving DecidableEq, Repr, Inhabited

/-- A Uuid, represented by its hexadecimal text (so `toHex` and `fromHex` are the
identity). -/
abbrev Uuid := QString

/-- An entry of the database: the fields the service reads or writes. `group` is the
pointer to the owning group. -/
structure Entry where
  uuid : Uuid := []
  title : QString := []
  username : QString := []
  password : QString := []
  url : QString := []
  group : Nat := 0
  attributes : List (QString × AttrValue) := []
deriving DecidableEq, Repr, Inhabited

/-- The constant `KEEPASSHTTP_NAME`, also the key of the permission attribute. -/
def KEEPASSHTTP_NAME : QString := qs "KeePassHttp Settings"

/-- The constant `KEEPASSHTTP_GROUP_NAME`. -/
def KEEPASSHTTP_GROUP_NAME : QString := qs "KeePassHttp Passwords"

/-- The constant `KEEPASSHTTP_UUID`, in hexadecimal. -/
def KEEPASSHTTP_UUID : Uuid := qs "34697a408a5b41c09f36897d623ecb31"

namespace Entry

/-- The call `attributes()->contains(key)`. -/
def attrContains (e : Entry) (key : QString) : Bool :=
  e.attributes.any (fun kv => kv.1 == key)

/-- The call `attributes()->remove(key)`. -/
def attrRemove (e : Entry) (key : QString) : Entry :=
  { e with attributes := e.attributes.filter (fun kv => kv.1 != key) }

/-- The call `attributes()->set(key, value)`: the value of an existing key is
replaced in place, a new key is added at the end. -/
def attrSet (e : Entry) (key : QString) (v : AttrValue) : Entry :=
  if e.attrContains key then
    { e with attributes := e.attributes.map (fun kv => if kv.1 == key then (key, v) else kv) }
  else
    { e with attributes := e.attributes ++ [(key, v)] }

/-- The value stored under a key, if any. -/
def attrValue (e : Entry) (key : QString) : Option AttrValue :=
  (e.attributes.find? (fun kv => kv.1 == key)).map (fun kv => kv.2)

end Entry

namespace EntryConfig

/-- Modelled from the spec: `EntryConfig::load`, which reads the permission attribute of
the entry and fails (`none`) when the attribute is absent or does not decode. -/
def load (entry : Entry) : Option EntryConfig :=
  match entry.attrValue KEEPASSHTTP_NAME with
  | some (.blob c) => some c
  | _ => none

/-- Modelled from the spec: `EntryConfig::save`, which writes the record back to the
permission attribute of the entry. -/
def save (c : EntryConfig) (entry : Entry) : Entry :=
  entry.attrSet KEEPASSHTTP_NAME (.blob c)

/-- Modelled from the spec: `EntryConfig::isAllowed`. -/
def isAllowed (c : EntryConfig) (host : QString) : Bool := decide (host ∈ c.allowedHosts)

/-- Modelled from the spec: `EntryConfig::isDenied`. -/
def isDenied (c : EntryConfig) (host : QString) : Bool := decide (host ∈ c.deniedHosts)

/-- Modelled from the spec: `EntryConfig::allow`; "inserts into one" set "remove it from
the other". -/
def allow (c : EntryConfig) (host : QString) : EntryConfig :=
  { c with
    allowedHosts := if host ∈ c.allowedHosts then c.allowedHosts else c.allowedHosts ++ [host]
    deniedHosts := c.deniedHosts.filter (fun h => h != host) }

/-- Modelled from the spec: `EntryConfig::deny`. -/
def deny (c : EntryConfig) (host : QString) : EntryConfig :=
  { c with
    deniedHosts := if host ∈ c.deniedHosts then c.deniedHosts else c.deniedHosts ++ [host]
    allowedHosts := c.allowedHosts.filter (fun h => h != host) }

/-- Modelled from the spec: `EntryConfig::setRealm`. -/
def setRealm (c : EntryConfig) (realm : QString) : EntryConfig := { c with realm := realm }

end EntryConfig

/-- The enumeration `Service::Access`. -/
inductive Access where
  | Denied
  | Unknown
  | Allowed
deriving DecidableEq, Repr, Inhabited

namespace Service

/-- The function `Service::checkAccess`. -/
def checkAccess (entry : Entry) (host submitHost realm : QString) : Access :=
  match EntryConfig.load entry with
  | none => Access.Unknown
  | some config =>
    if config.isAllowed host && (submitHost.isEmpty || config.isAllowed submitHost) then
      Access.Allowed
    else if config.isDenied host || (!submitHost.isEmpty && config.isDenied submitHost) then
      Access.Denied
    else if !realm.isEmpty && config.realm != realm then
      Access.Denied
    else
      Access.Unknown

end Service

/-! ## The access table of section 4.5.2, as the specification words it -/

namespace AccessTable

/-- The condition of each of the five rows of the table, top to bottom. The rows
after the first speak of the loaded record. -/
def rowHolds (config : Option EntryConfig) (H S R : QString) : Fin 5 → Prop
  | 0 => config = none
  | 1 => ∃ c, config = some c ∧ H ∈ c.allowedHosts ∧ (S = [] ∨ S ∈ c.allowedHosts)
  | 2 => ∃ c, config = some c ∧ (H ∈ c.deniedHosts ∨ (S ≠ [] ∧ S ∈ c.deniedHosts))
  | 3 => ∃ c, config = some c ∧ R ≠ [] ∧ c.realm ≠ R
  | 4 => True

/-- The outcome of each row. -/
def rowOutcome : Fin 5 → Access
  | 0 => Access.Unknown
  | 1 => Access.Allowed
  | 2 => Access.Denied
  | 3 => Access.Denied
  | 4 => Access.Unknown

/-- An input falls in row `i` when `i` is the first row whose condition holds. -/
def fallsInRow (config : Option EntryConfig) (H S R : QString) (i : Fin 5) : Prop :=
  rowHolds config H S R i ∧ ∀ j : Fin 5, j < i → ¬ rowHolds config H S R j

/-- The row an input falls in, computed. -/
def rowOf (config : Option EntryConfig) (H S R : QString) : Fin 5 :=
  match config with
  | none => 0
  | some c =>
    if H ∈ c.allowedHosts ∧ (S = [] ∨ S ∈ c.allowedHosts) then 1
    else if H ∈ c.deniedHosts ∨ (S ≠ [] ∧ S ∈ c.deniedHosts) then 2
    else if R ≠ [] ∧ c.realm ≠ R then 3
    else 4

end AccessTable

/-! ## The database, as the service sees it -/

/-- A group of the database. `parent` is the pointer to the parent group, `none` for
the root group. -/
structure Group where
  uuid : Uuid := []
  name : QString := []
  parent : Option Nat := none
deriving DecidableEq, Repr, Inhabited

/-- Modelled from the spec: the `Database` behind the `Vault` interface of section 6
(the classes `Database`, `Group` and `Entry` are not among the sources). Groups and
entries live in two arenas and a pointer is an index into its arena. The group arena
lists the groups in the order of `rootGroup()->groupsRecursive(true)`, so the root
group, when there is one, has pointer `0`, and a group given the root as parent comes
last. The entries of a group are those of the entry arena that point to it, in
arena order. -/
structure Database where
  groups : List Group := []
  entries : List Entry := []
  recycleBin : Option Nat := none
deriving DecidableEq, Repr, Inhabited

namespace Database

/-- The call `db->rootGroup()`. -/
def rootGroup (db : Database) : Option Nat :=
  if db.groups.isEmpty then none else some 0

/-- The entry behind a pointer. -/
def entry (db : Database) (p : Nat) : Entry := db.entries.getD p {}

/-- The group behind a pointer. -/
def group (db : Database) (g : Nat) : Group := db.groups.getD g {}

/-- The database after the entry behind `p` is rewritten by `f`. -/
def modifyEntry (db : Database) (p : Nat) (f : Entry → Entry) : Database :=
  { db with entries := db.entries.set p (f (db.entry p)) }

/-- The pointers to the entries of group `g`, in order. -/
def entriesOf (db : Database) (g : Nat) : List Nat :=
  (List.range db.entries.length).filter (fun p => (db.entry p).group == g)

/-- The call `rootGroup()->groupsRecursive(true)`. -/
def groupsRecursive (db : Database) : List Nat := List.range db.groups.length

/-- The call `rootGroup()->entriesRecursive()`: the entries of every group, group
after group. -/
def entriesRecursive (db : Database) : List Nat :=
  db.groupsRecursive.flatMap (fun g => db.entriesOf g)

/-- The database with one more group, at the end, and the given entry arena. -/
def grown (db : Database) (G : Group) (es : List Entry) : Database :=
  { groups := db.groups ++ [G], entries := es, recycleBin := db.recycleBin }

/-- The call `db->resolveEntry(uuid)`: the first entry with this uuid. -/
def resolveEntry (db : Database) (uuid : Uuid) : Option Nat :=
  db.entriesRecursive.find? (fun p => (db.entry p).uuid == uuid)

/-- The call `db->resolveGroup(uuid)`: the first group with this uuid. -/
def resolveGroup (db : Database) (uuid : Uuid) : Option Nat :=
  db.groupsRecursive.find? (fun g => (db.group g).uuid == uuid)

end Database

/-- The enumeration `DatabaseWidget::Mode`. -/
inductive Mode where
  | None
  | LockedMode
  | ViewMode
  | EditMode
deriving DecidableEq, Repr, Inhabited

/-- The widget of the current tab: its mode and its database pointer. -/
structure DatabaseWidget where
  currentMode : Mode := Mode.None
  database : Option Database := none
deriving DecidableEq, Repr, Inhabited

/-- The kind of a message box. -/
inductive Severity where
  | critical
  | information
  | warning
deriving DecidableEq, Repr, Inhabited

/-- A message box that was shown to the user: its kind and its title. -/
structure Message where
  severity : Severity
  title : String
deriving DecidableEq, Repr, Inhabited

/-- The state a `Service` works on: the result of
`m_dbTabWidget->currentDatabaseWidget()` (`none` for a null pointer) and the message
boxes shown so far, oldest first. -/
structure Service where
  currentDatabaseWidget : Option DatabaseWidget := none
  shown : List Message := []
deriving DecidableEq, Repr, Inhabited

/-- The library calls of the service whose code is outside the sources: the host of a
URL and the search of the group tree, which returns pointers to entries of the
database. -/
structure Lib where
  host : QString → QString
  search : Database → QString → List Nat
  search_valid : ∀ (db : Database) (text : QString) (p : Nat),
    p ∈ search db text → p < db.entries.length

/-- The record `KeepassHttpProtocol::Entry` built by `prepareEntry`. -/
structure ProtocolEntry where
  name : QString := []
  login : QString := []
  password : QString := []
  uuid : QString := []
  stringFields : List (QString × AttrValue) := []
deriving DecidableEq, Repr, Inhabited

/-- The value `QDialog::Accepted`. -/
def QDialog.Accepted : Int := 1

/-- The value `QDialog::Rejected`. -/
def QDialog.Rejected : Int := 0

/-- What the user does with the access control dialog: the result of `dlg.exec()` and
the state of the remember box. -/
structure DialogAnswer where
  res : Int
  remember : Bool
deriving DecidableEq, Repr, Inhabited

namespace Service

/-- The database of the current widget, if both exist. -/
def currentDatabase (s : Service) : Option Database :=
  match s.currentDatabaseWidget with
  | some w => w.database
  | none => none

/-- The entry behind a pointer into the current database. -/
def entry (s : Service) (p : Nat) : Entry :=
  match s.currentDatabase with
  | some db => db.entry p
  | none => {}

/-- The number of entries in the arena of the current database. -/
def entryCount (s : Service) : Nat :=
  match s.currentDatabase with
  | some db => db.entries.length
  | none => 0

/-- The state after the current database is replaced. -/
def setDatabase (s : Service) (db : Database) : Service :=
  match s.currentDatabaseWidget with
  | some w => { s with currentDatabaseWidget := some { w with database := some db } }
  | none => s

/-- The state after the entry behind `p` is rewritten by `f`. -/
def modifyEntry (s : Service) (p : Nat) (f : Entry → Entry) : Service :=
  match s.currentDatabase with
  | some db => s.setDatabase (db.modifyEntry p f)
  | none => s

/-- The state after a message box is shown. -/
def showMessage (s : Service) (severity : Severity) (title : String) : Service :=
  { s with shown := s.shown ++ [{ severity := severity, title := title }] }

/-- The function `Service::isDatabaseOpened`. -/
def isDatabaseOpened (s : Service) : Bool :=
  match s.currentDatabaseWidget with
  | some dbWidget =>
    match dbWidget.currentMode with
    | Mode.None => false
    | Mode.LockedMode => false
    | Mode.ViewMode => true
    | Mode.EditMode => true
  | none => false

/-- The function `Service::matchUrlScheme`. -/
def matchUrlScheme (url : QString) : Bool :=
  let str := toLower (url.take 8)
  (qs "http://").isPrefixOf str ||
  (qs "https://").isPrefixOf str ||
  (qs "ftp://").isPrefixOf str ||
  (qs "ftps://").isPrefixOf str

/-- The function `Service::removeFirstDomain`; the second component is the value of
the reference parameter on return. -/
def removeFirstDomain (hostname : QString) : Bool × QString :=
  let pos := indexOf hostname '.'
  if pos < 0 then
    (false, hostname)
  else
    let hostname := mid hostname (pos + 1)
    (!hostname.isEmpty, hostname)

/-- The filter of `searchEntries` on one entry returned by the search. -/
def matchesHostname (lib : Lib) (db : Database) (hostname : QString) (entry : Nat) : Bool :=
  let title := (db.entry entry).title
  let url := (db.entry entry).url
  qContains hostname title
    || qContains hostname url
    || (matchUrlScheme title && qContains hostname (lib.host title))
    || (matchUrlScheme url && qContains hostname (lib.host url))

/-- One run of the body of the do-while loop of `searchEntries`: the entries of the
search that pass the filter are appended to `entries`. -/
def searchPass (lib : Lib) (db : Database) (hostname : QString) (entries : List Nat) :
    List Nat :=
  entries ++ (lib.search db hostname).filter (matchesHostname lib db hostname)

/-- The do-while loop of `searchEntries`. Besides the entries it returns the host
names it searched for, in order. `none` when the fuel runs out. -/
def searchLoop (lib : Lib) (db : Database) :
    Nat → QString → List Nat → List QString → Option (List Nat × List QString)
  | 0, _, _, _ => none
  | fuel + 1, hostname, entries, tried =>
    let entries := searchPass lib db hostname entries
    let tried := tried ++ [hostname]
    if entries.isEmpty && (removeFirstDomain hostname).1 then
      searchLoop lib db fuel (removeFirstDomain hostname).2 entries tried
    else
      some (entries, tried)

/-- The function `Service::searchEntries`, with the host names searched for. The loop
is given one step more than the host name has characters. -/
def searchEntriesTraced (lib : Lib) (s : Service) (text : QString) :
    Option (List Nat × List QString) :=
  let hostname := lib.host text
  match s.currentDatabaseWidget with
  | some dbWidget =>
    match dbWidget.database with
    | some db =>
      match db.rootGroup with
      | some _ => searchLoop lib db (hostname.length + 1) hostname [] []
      | none => some ([], [])
    | none => some ([], [])
  | none => some ([], [])

/-- The function `Service::searchEntries`. -/
def searchEntries (lib : Lib) (s : Service) (text : QString) : List Nat :=
  match searchEntriesTraced lib s text with
  | some r => r.1
  | none => []

/-- The function `Service::prepareEntry`. -/
def prepareEntry (entry : Entry) : ProtocolEntry :=
  { name := entry.title
    login := entry.username
    password := entry.password
    uuid := entry.uuid
    stringFields := entry.attributes.filter (fun kv => (qs "KPH: ").isPrefixOf kv.1) }

/-- The local `autoAccept` of `findMatchingEntries`. -/
def autoAccept : Bool := false

/-- The first loop of `findMatchingEntries`, which sorts the entries of the search by
their access: the pair is `(result, pwEntriesToConfirm)`. -/
def checkEntries (s : Service) (host submitHost realm : QString) :
    List Nat → List ProtocolEntry × List Nat → List ProtocolEntry × List Nat
  | [], acc => acc
  | entry :: rest, (result, pwEntriesToConfirm) =>
    match checkAccess (s.entry entry) host submitHost realm with
    | Access.Denied => checkEntries s host submitHost realm rest (result, pwEntriesToConfirm)
    | Access.Unknown =>
      if !autoAccept then
        checkEntries s host submitHost realm rest (result, pwEntriesToConfirm ++ [entry])
      else
        checkEntries s host submitHost realm rest
          (result ++ [prepareEntry (s.entry entry)], pwEntriesToConfirm)
    | Access.Allowed =>
      checkEntries s host submitHost realm rest
        (result ++ [prepareEntry (s.entry entry)], pwEntriesToConfirm)

/-- The body of the loop of `findMatchingEntries` that remembers the answer, on one
entry. A failed `load` leaves the fresh record. -/
def rememberEntry (res : Int) (host submitHost realm : QString) (entry : Entry) : Entry :=
  let config : EntryConfig := (EntryConfig.load entry).getD {}
  let config :=
    if res = QDialog.Accepted then
      let config := config.allow host
      if !submitHost.isEmpty && host != submitHost then config.allow submitHost else config
    else if res = QDialog.Rejected then
      let config := config.deny host
      if !submitHost.isEmpty && host != submitHost then config.deny submitHost else config
    else config
  let config := if !realm.isEmpty then config.setRealm realm else config
  config.save entry

/-- The loop of `findMatchingEntries` that remembers the answer on every entry of the
search. -/
def rememberAll (res : Int) (host submitHost realm : QString) : List Nat → Service → Service
  | [], s => s
  | entry :: rest, s =>
    rememberAll res host submitHost realm rest
      (s.modifyEntry entry (rememberEntry res host submitHost realm))

/-- What `findMatchingEntries` leaves: the list it returns, the state, and the
entries put to the user when the dialog was shown. -/
structure Found where
  result : List ProtocolEntry
  service : Service
  asked : Option (List Nat)
deriving DecidableEq, Repr, Inhabited

/-- The function `Service::findMatchingEntries`. The answer is consulted only when
the dialog is shown. -/
def findMatchingEntries (lib : Lib) (s : Service) (dlg : DialogAnswer)
    (_id url submitUrl realm : QString) : Found :=
  let host := lib.host url
  let submitHost := lib.host submitUrl
  let pwEntries := searchEntries lib s url
  let (result, pwEntriesToConfirm) := checkEntries s host submitHost realm pwEntries ([], [])
  if !pwEntriesToConfirm.isEmpty then
    let s1 := if dlg.remember then rememberAll dlg.res host submitHost realm pwEntries s else s
    let result :=
      if dlg.res = QDialog.Accepted then result ++ pwEntries.map (fun entry => prepareEntry (s1.entry entry))
      else result
    { result := result, service := s1, asked := some pwEntriesToConfirm }
  else
    { result := result, service := s, asked := none }

end Service

/-! ## A concrete library, for evaluating the service -/

/-- The characters after the first `://` of a string, if there is one. -/
def afterScheme : QString → Option QString
  | [] => none
  | c :: cs => if (qs "://").isPrefixOf (c :: cs) then some (cs.drop 2) else afterScheme cs

/-- A reading of `QUrl(text).host()` for URLs of the shape `scheme://host[:port][/path]`:
the characters after `://` up to the first of `/ : ? #`, in lower case; empty when
there is no `://`. -/
def urlHost (text : QString) : QString :=
  match afterScheme text with
  | some rest =>
    toLower (rest.takeWhile (fun c => c != '/' && c != ':' && c != '?' && c != '#'))
  | none => []

/-- Modelled from the spec: `Group::search(text, Qt::CaseInsensitive)` on the root
group (the class `Group` is not among the sources): the entries, in the order of the
recursive walk, whose title or URL contains the text when case is ignored. -/
def groupSearch (db : Database) (text : QString) : List Nat :=
  db.entriesRecursive.filter (fun p =>
    qContains (toLower (db.entry p).title) (toLower text)
      || qContains (toLower (db.entry p).url) (toLower text))

/-- The library used in the evaluations below. -/
def qtLib : Lib where
  host := urlHost
  search := groupSearch
  search_valid := fun db _ p h => by
    have h1 : p ∈ db.entriesRecursive := (List.mem_filter.mp h).1
    obtain ⟨g, _, hg⟩ := List.mem_flatMap.mp h1
    exact List.mem_range.mp (List.mem_filter.mp hg).1

/-! ## Small vaults for the evaluations -/

namespace Example

/-- The page of the requests below. -/
def pageUrl : QString := qs "https://example.com/"

/-- The form target of the requests below. -/
def formUrl : QString := qs "https://login.example.com/submit"

/-- An entry whose stored permission denies `example.com`. -/
def deniedEntry : Entry :=
  { uuid := qs "d0", title := qs "example.com", username := qs "dora", password := qs "pw-d",
    url := qs "https://example.com/login",
    attributes := [(KEEPASSHTTP_NAME, AttrValue.blob { deniedHosts := [qs "example.com"] })] }

/-- An entry whose stored permission allows `example.com` and `login.example.com`. -/
def allowedEntry : Entry :=
  { uuid := qs "a0", title := qs "example.com", username := qs "alan", password := qs "pw-a",
    url := qs "https://example.com/login",
    attributes := [(KEEPASSHTTP_NAME,
      AttrValue.blob { allowedHosts := [qs "example.com", qs "login.example.com"] })] }

/-- An entry without a stored permission. -/
def unknownEntry : Entry :=
  { uuid := qs "u0", title := qs "example.com", username := qs "uma", password := qs "pw-u",
    url := qs "https://example.com/" }

/-- A database with the given entries, all in the root group. -/
def rootOnly (entries : List Entry) : Database :=
  { groups := [{ name := qs "Root" }], entries := entries }

/-- An open database with the given entries, all in the root group. -/
def openVault (entries : List Entry) : Service :=
  { currentDatabaseWidget := some
      { currentMode := Mode.ViewMode, database := some (rootOnly entries) } }

end Example

/-! ## The domain peel of section 4.5.1, as the specification words it -/

namespace DomainPeel

/-- The DNS labels of a host name: the pieces between its dots. -/
def labels : QString → List QString
  | [] => [[]]
  | c :: cs =>
    if c = '.' then [] :: labels cs
    else
      match labels cs with
      | l :: ls => (c :: l) :: ls
      | [] => [[c]]

/-- The host name with the given labels. -/
def joinLabels : List QString → QString
  | [] => []
  | [l] => l
  | l :: l2 :: ls => l ++ '.' :: joinLabels (l2 :: ls)

/-- The host with its `k` leading labels removed. -/
def peel (h : QString) (k : Nat) : QString := joinLabels ((labels h).drop k)

/-- The candidate hosts of a search for `h`: `h` itself, then `h` with one leading
label removed, with two removed, and so on while a label can be removed and what is
left is not empty. -/
def candidateHosts (h : QString) : List QString :=
  h :: (((List.range (labels h).length).tail.map (peel h)).takeWhile (fun c => !c.isEmpty))

/-- The first candidate whose match set is not empty. -/
def firstHit (pass : QString → List Nat) (cands : List QString) : Option QString :=
  cands.find? (fun c => !(pass c).isEmpty)

/-- The matches of the first candidate that has any; empty when none has. -/
def returned (pass : QString → List Nat) (cands : List QString) : List Nat :=
  match firstHit pass cands with
  | some c => pass c
  | none => []

/-- The candidates up to and including the first that has a match (all of them
when none has). -/
def tried (pass : QString → List Nat) (cands : List QString) : List QString :=
  cands.takeWhile (fun c => (pass c).isEmpty) ++ (firstHit pass cands).toList

end DomainPeel

/-! ## The per-entry match of section 4.5.1, as the code decides it -/

namespace EntryMatch

/-- The schemes `matchUrlScheme` looks for. -/
def schemes : List QString := [qs "http://", qs "https://", qs "ftp://", qs "ftps://"]

/-- The text starts with one of the four schemes when case is ignored. -/
def startsWithScheme (t : QString) : Prop := ∃ sch ∈ schemes, sch <+: toLower t

/-- The entry is kept for host `h`: `h` contains the title, or `h` contains the URL
(both as written, case included), or the title or URL starts with a scheme and `h`
contains the host parsed from it. -/
def keeps (host : QString → QString) (h : QString) (e : Entry) : Prop :=
  e.title <:+: h
    ∨ e.url <:+: h
    ∨ (startsWithScheme e.title ∧ host e.title <:+: h)
    ∨ (startsWithScheme e.url ∧ host e.url <:+: h)

end EntryMatch

namespace Example

/-- The entry of scenario S2. -/
def exampleComEntry : Entry :=
  { uuid := qs "e0", title := qs "example.com", url := qs "https://example.com/login" }

/-- An entry found by its title, in lower case, with a URL that is no URL. -/
def lowerTitleEntry : Entry :=
  { uuid := qs "t0", title := qs "example.com", url := qs "n/a" }

/-- The same entry with the title in another letter case. -/
def upperTitleEntry : Entry :=
  { uuid := qs "t1", title := qs "Example.COM", url := qs "n/a" }

end Example

/-! ## The device listener -/

/-- The arguments of the signal `devicePlugged`; the two pointers are kept as
numbers. -/
structure Plugged where
  state : Bool
  ctx : Nat
  device : Nat
deriving DecidableEq, Repr, Inhabited

namespace DeviceListener

/-- The functor handed to `QTimer::singleShot` by the lambda connected in the
constructor of `DeviceListener`. It is written with the capture `[&]`, so it holds
references to the parameters `state`, `ctx` and `device` of one call of the connected
lambda: `frame` names that call. -/
structure SingleShot where
  due : Nat
  frame : Nat
deriving DecidableEq, Repr, Inhabited

/-- The façade at a point in time. `frames` has one slot for each call of the
connected lambda so far, holding the parameters of the call while the call runs and
`none` once it has returned, when their lifetime is over. `emitted` lists the
emissions of `DeviceListener::devicePlugged` with their time in milliseconds; the
arguments are `none` when they are read through a reference to an object whose
lifetime is over, which the language leaves undefined. -/
structure Facade where
  frames : List (Option Plugged) := []
  timers : List SingleShot := []
  emitted : List (Nat × Option Plugged) := []
deriving DecidableEq, Repr, Inhabited

/-- One call of the lambda connected to the signal of the backend, at time `now`:
the parameters come to life, `QTimer::singleShot(50, [&] ...)` stores the functor
with references to them, and the call returns. -/
def onDevicePlugged (now : Nat) (state : Bool) (ctx device : Nat) (f : Facade) : Facade :=
  let frame := f.frames.length
  let frames := f.frames ++ [some { state := state, ctx := ctx, device := device }]
  let timers := f.timers ++ [{ due := now + 50, frame := frame }]
  { f with frames := frames.set frame none, timers := timers }

/-- The event loop at time `now`: the timers that are due fire in the order they
were started; each runs `emit devicePlugged(state, ctx, device)` through its
references. -/
def processTimers (now : Nat) (f : Facade) : Facade :=
  let due := f.timers.filter (fun t => t.due ≤ now)
  { f with
    timers := f.timers.filter (fun t => !(t.due ≤ now))
    emitted := f.emitted ++ due.map (fun t => (now, (f.frames.getD t.frame none))) }

end DeviceListener

/-! ## The libusb backend -/

namespace LibUsb

/-- The constant `LIBUSB_HOTPLUG_EVENT_DEVICE_ARRIVED`. -/
def HOTPLUG_EVENT_DEVICE_ARRIVED : Nat := 1

/-- The constant `LIBUSB_HOTPLUG_EVENT_DEVICE_LEFT`. -/
def HOTPLUG_EVENT_DEVICE_LEFT : Nat := 2

/-- A hotplug callback registered with the library. -/
structure Callback where
  handle : Nat
  events : Nat
  vendorId : Int
  productId : Int
deriving DecidableEq, Repr, Inhabited

/-- A call into the library that bears on hotplug callbacks. -/
inductive LibCall where
  | init (ok : Bool)
  | registerCallback (cb : Callback) (ok : Bool)
  | deregisterCallback (handle : Nat)
deriving DecidableEq, Repr, Inhabited

/-- The library as the listener can tell: the callbacks registered with it, the
handle it gives out next (handles are positive and never given twice), and the calls
made to it so far. -/
structure Library where
  callbacks : List Callback := []
  nextHandle : Nat := 1
  calls : List LibCall := []
deriving DecidableEq, Repr, Inhabited

/-- The call `libusb_hotplug_deregister_callback(ctx, handle)`. -/
def Library.deregisterCallback (usb : Library) (handle : Nat) : Library :=
  { usb with
    callbacks := usb.callbacks.filter (fun cb => cb.handle != handle)
    calls := usb.calls ++ [LibCall.deregisterCallback handle] }

/-- The call `libusb_hotplug_register_callback(...)`; `ok` says whether the library
accepts it. On success the handle is also written to the caller. -/
def Library.registerCallback (usb : Library) (ok : Bool) (events : Nat)
    (vendorId productId : Int) : Library :=
  let cb : Callback :=
    { handle := usb.nextHandle, events := events, vendorId := vendorId, productId := productId }
  if ok then
    { callbacks := usb.callbacks ++ [cb]
      nextHandle := usb.nextHandle + 1
      calls := usb.calls ++ [LibCall.registerCallback cb true] }
  else
    { usb with calls := usb.calls ++ [LibCall.registerCallback cb false] }

end LibUsb

/-- The object `DeviceListenerLibUsb` with what it acts on: its members, the library,
and the workers started with `QtConcurrent::run` that are still running. `m_ctx` is
whether the context pointer is set; `m_usbEvents` is the worker the future stands
for. -/
structure DeviceListenerLibUsb where
  m_ctx : Bool := false
  m_callbackRef : Nat := 0
  m_completed : Bool := false
  m_usbEvents : Option Nat := none
  usb : LibUsb.Library := {}
  running : List Nat := []
  started : Nat := 0
deriving DecidableEq, Repr, Inhabited

namespace DeviceListenerLibUsb

open LibUsb

/-- The lambda given to the library as callback: what it emits as `devicePlugged`. -/
def callback (ctx device event : Nat) : Option Plugged :=
  if ctx = 0 then none
  else some { state := decide (event = HOTPLUG_EVENT_DEVICE_ARRIVED), ctx := ctx, device := device }

/-- The call `m_usbEvents.isRunning()`. -/
def isRunning (l : DeviceListenerLibUsb) : Bool :=
  match l.m_usbEvents with
  | some w => decide (w ∈ l.running)
  | none => false

/-- The function `DeviceListenerLibUsb::deregisterHotplugCallback`. The wait ends
when the worker of the future has left its loop; workers the object holds no future
for are not waited for. -/
def deregisterHotplugCallback (l : DeviceListenerLibUsb) : DeviceListenerLibUsb :=
  if l.m_ctx then
    let l1 := { l with usb := l.usb.deregisterCallback l.m_callbackRef }
    if l1.isRunning then
      { l1 with
        m_completed := true
        running := l1.running.filter (fun w => some w != l1.m_usbEvents) }
    else l1
  else l

/-- The local `events` of `registerHotplugCallback`, as it is passed to the library. -/
def hotplugEvents (arrived left : Bool) : Nat :=
  let events := 0
  let events := if arrived then events ||| HOTPLUG_EVENT_DEVICE_ARRIVED else events
  let events := if left then events ||| HOTPLUG_EVENT_DEVICE_LEFT else events
  events

/-- The function `DeviceListenerLibUsb::registerHotplugCallback`. `initOk` and `regOk`
say whether `libusb_init` (called only without a context) and
`libusb_hotplug_register_callback` succeed. -/
def registerHotplugCallback (initOk regOk : Bool) (arrived left : Bool)
    (vendorId productId : Int) (l : DeviceListenerLibUsb) : DeviceListenerLibUsb :=
  if !l.m_ctx && !initOk then
    { l with usb := { l.usb with calls := l.usb.calls ++ [LibCall.init false] } }
  else
    let l1 :=
      if !l.m_ctx then
        { l with m_ctx := true, usb := { l.usb with calls := l.usb.calls ++ [LibCall.init true] } }
      else l
    let l2 :=
      if l1.m_callbackRef ≠ 0 then
        { deregisterHotplugCallback l1 with m_callbackRef := 0 }
      else l1
    let events := hotplugEvents arrived left
    let l3 :=
      { l2 with
        m_callbackRef := if regOk then l2.usb.nextHandle else l2.m_callbackRef
        usb := l2.usb.registerCallback regOk events vendorId productId }
    let l4 := if !regOk then { l3 with m_callbackRef := 0 } else l3
    { l4 with
      m_completed := false
      m_usbEvents := some l4.started
      running := l4.running ++ [l4.started]
      started := l4.started + 1 }

/-- A call of one of the two public functions, with the outcomes of the library. -/
inductive Call where
  | register (initOk regOk arrived left : Bool) (vendorId productId : Int)
  | deregister
deriving DecidableEq, Repr, Inhabited

/-- The object after one call. -/
def step (l : DeviceListenerLibUsb) : Call → DeviceListenerLibUsb
  | Call.register initOk regOk arrived left vendorId productId =>
    registerHotplugCallback initOk regOk arrived left vendorId productId l
  | Call.deregister => deregisterHotplugCallback l

/-- The object after a sequence of calls. -/
def run (calls : List Call) (l : DeviceListenerLibUsb) : DeviceListenerLibUsb :=
  calls.foldl step l

/-- The invariant of the object: a callback registered with the library is the only
one, the context is set, and `m_callbackRef` is its handle; handles given out are
below the next handle, which is positive. -/
def OneCallback (l : DeviceListenerLibUsb) : Prop :=
  0 < l.usb.nextHandle
  ∧ l.m_callbackRef < l.usb.nextHandle
  ∧ (l.usb.callbacks = []
      ∨ (l.m_ctx = true ∧ l.m_callbackRef ≠ 0
          ∧ ∃ cb, l.usb.callbacks = [cb] ∧ cb.handle = l.m_callbackRef))

end DeviceListenerLibUsb

/-! ## The operations that change the database -/

/-- The constant `ASSOCIATE_KEY_PREFIX`. -/
def ASSOCIATE_KEY_PREFIX : QString := qs "AES Key: "

namespace Service

/-- The title of the message box for a database that is not open. -/
def titleLocked : String := "KeyPassX/Http: Database locked!"

/-- The state after an entry is created in the current database. -/
def appendEntry (s : Service) (e : Entry) : Service :=
  match s.currentDatabase with
  | some db => s.setDatabase { db with entries := db.entries ++ [e] }
  | none => s

/-- The function `Service::getConfigEntry`: the pointer it returns (`none` for
`NULL`) and the state it leaves. The outer `none` is `setGroup` on a null root
group. -/
def getConfigEntry (s : Service) (create : Bool) : Option (Option Nat × Service) :=
  match s.currentDatabaseWidget with
  | some dbWidget =>
    match dbWidget.database with
    | some db =>
      match db.resolveEntry KEEPASSHTTP_UUID with
      | none =>
        if create then
          match db.rootGroup with
          | some rootGroup =>
            some (some db.entries.length,
              s.appendEntry { title := KEEPASSHTTP_NAME, uuid := KEEPASSHTTP_UUID, group := rootGroup })
          | none => none
        else some (none, s)
      | some entry =>
        if some (db.entry entry).group == db.recycleBin then
          if create then
            match db.rootGroup with
            | some rootGroup =>
              some (some entry, s.modifyEntry entry (fun e => { e with group := rootGroup }))
            | none => none
          else some (none, s)
        else some (some entry, s)
    | none => some (none, s)
  | none => some (none, s)

/-- The group made by `findCreateAddEntryGroup`: `new Group()` with `setUuid`,
`setName` and `setParent`. -/
def newGroup (uuid : Uuid) (name : QString) (parent : Nat) : Group :=
  { uuid := uuid, name := name, parent := some parent }

/-- The entry made by `addEntry`, with the permission it is given. -/
def newEntry (lib : Lib) (group : Nat) (entryUuid : Uuid)
    (login password url submitUrl realm : QString) : Entry :=
  let entry : Entry :=
    { uuid := entryUuid, title := lib.host url, url := url, username := login,
      password := password, group := group }
  let host := lib.host url
  let submitHost := lib.host submitUrl
  let config : EntryConfig := {}
  let config := config.allow host
  let config := if !submitHost.isEmpty then config.allow submitHost else config
  let config := if !realm.isEmpty then config.setRealm realm else config
  config.save entry

/-- The function `Service::findCreateAddEntryGroup`; `randomUuid` is the value of
`Uuid::random()` when it is called. -/
def findCreateAddEntryGroup (s : Service) (randomUuid : Uuid) : Option Nat × Service :=
  match s.currentDatabaseWidget with
  | some dbWidget =>
    match dbWidget.database with
    | some db =>
      match db.rootGroup with
      | some rootGroup =>
        let groupName := KEEPASSHTTP_GROUP_NAME
        match db.groupsRecursive.find? (fun g => (db.group g).name == groupName) with
        | some g => (db.resolveGroup (db.group g).uuid, s)
        | none =>
          let group := newGroup randomUuid groupName rootGroup
          (some db.groups.length, s.setDatabase { db with groups := db.groups ++ [group] })
      | none => (none, s)
    | none => (none, s)
  | none => (none, s)

/-- The function `Service::addEntry`; `groupUuid` and `entryUuid` are the values of
the two calls of `Uuid::random()`. -/
def addEntry (lib : Lib) (s : Service) (groupUuid entryUuid : Uuid)
    (_id login password url submitUrl realm : QString) : Service :=
  match findCreateAddEntryGroup s groupUuid with
  | (some group, s1) =>
    s1.appendEntry (newEntry lib group entryUuid login password url submitUrl realm)
  | (none, s1) => s1

/-- The local `autoAllow` of `updateEntry`. -/
def autoAllow : Bool := false

/-- The function `Service::updateEntry`; `answerYes` is the user's answer to the
warning box, which is shown only when `autoAllow` is off. -/
def updateEntry (s : Service) (answerYes : Bool) (_id uuid login password _url : QString) :
    Service :=
  match s.currentDatabaseWidget with
  | some dbWidget =>
    match dbWidget.database with
    | some db =>
      match db.resolveEntry uuid with
      | some entry =>
        let u := (db.entry entry).username
        if u != login || (db.entry entry).password != password then
          let s1 := if autoAllow then s else s.showMessage Severity.warning "KeyPassX/Http: Update Entry"
          if autoAllow || answerYes then
            s1.modifyEntry entry (fun e => { e with username := login, password := password })
          else s1
        else s
      | none => s
    | none => s
  | none => s

/-- The function `Service::removeSharedEncryptionKeys`. -/
def removeSharedEncryptionKeys (s : Service) : Option Service :=
  if !isDatabaseOpened s then
    some (s.showMessage Severity.critical titleLocked)
  else
    match getConfigEntry s false with
    | some (some entry, s1) =>
      let keysToRemove :=
        ((s1.entry entry).attributes.map (fun kv => kv.1)).filter
          (fun key => ASSOCIATE_KEY_PREFIX.isPrefixOf key)
      if keysToRemove.length ≠ 0 then
        let s2 := s1.modifyEntry entry (fun e => keysToRemove.foldl (fun e key => e.attrRemove key) e)
        some (s2.showMessage Severity.information "KeyPassX/Http: Removed keys from database")
      else
        some (s1.showMessage Severity.information "KeyPassX/Http: No keys found")
    | some (none, s1) =>
      some (s1.showMessage Severity.information "KeyPassX/Http: Settings not available!")
    | none => none

/-- The loop of `removeStoredPermissions` over the entries. `wasCanceled i` is the
answer of `progress.wasCanceled()` when the progress stands at `i`; the result is the
state, the counter and whether the function returned from inside the loop. -/
def removePermissionsLoop (wasCanceled : Nat → Bool) :
    List Nat → Service → Nat → Nat → Service × Nat × Bool
  | [], s, counter, _ => (s, counter, false)
  | entry :: rest, s, counter, value =>
    if wasCanceled value then (s, counter, true)
    else if (s.entry entry).attrContains KEEPASSHTTP_NAME then
      removePermissionsLoop wasCanceled rest
        (s.modifyEntry entry (fun e => e.attrRemove KEEPASSHTTP_NAME))
        ((counter + 1) % 4294967296) (value + 1)
    else
      removePermissionsLoop wasCanceled rest s counter (value + 1)

/-- The function `Service::removeStoredPermissions`. `none` is the dereference of a
null database or root group in the branch of the open database. -/
def removeStoredPermissions (s : Service) (wasCanceled : Nat → Bool) : Option Service :=
  if !isDatabaseOpened s then
    some (s.showMessage Severity.critical titleLocked)
  else
    match s.currentDatabaseWidget with
    | some dbWidget =>
      match dbWidget.database with
      | some db =>
        match db.rootGroup with
        | some _ =>
          let entries := db.entriesRecursive
          match removePermissionsLoop wasCanceled entries s 0 0 with
          | (s1, _, true) => some s1
          | (s1, counter, false) =>
            if counter > 0 then
              some (s1.showMessage Severity.information "KeyPassX/Http: Removed permissions")
            else
              some (s1.showMessage Severity.information
                "KeyPassX/Http: No entry with permissions found!")
        | none => none
      | none => none
    | none => none

/-- The pointers to the groups of the current database that have the reserved
name. -/
def reservedGroups (s : Service) : List Nat :=
  match s.currentDatabase with
  | some db => db.groupsRecursive.filter (fun g => (db.group g).name == KEEPASSHTTP_GROUP_NAME)
  | none => []

end Service

namespace Example

/-- A service without a current database widget. -/
def noDatabase : Service := {}

/-- A locked database with the given entries. -/
def lockedVault (entries : List Entry) : Service :=
  { currentDatabaseWidget := some
      { currentMode := Mode.LockedMode, database := some (rootOnly entries) } }

/-- An entry with a stored permission and one more attribute. -/
def taggedEntry (n : Nat) : Entry :=
  { uuid := qs "tag", title := List.replicate n 'x',
    attributes := [(qs "KPH: note", AttrValue.text (qs "keep")),
                   (KEEPASSHTTP_NAME, AttrValue.blob { allowedHosts := [qs "example.com"] })] }

/-- The answers of a progress dialog whose cancel button is pressed when the progress
stands at `k`. -/
def cancelAt (k : Nat) : Nat → Bool := fun i => decide (k ≤ i)

end Example

/-! ## Names for the parts of a request -/

namespace Service

/-- The entries of the search whose access is the given one, in search order. -/
def candidatesWith (lib : Lib) (s : Service) (url submitUrl realm : QString) (a : Access) :
    List Nat :=
  (searchEntries lib s url).filter
    (fun p => checkAccess (s.entry p) (lib.host url) (lib.host submitUrl) realm = a)

end Service

namespace Example

/-- The open vault with a Denied, an Allowed and an Unknown candidate. -/
def mixedVault : Service := openVault [deniedEntry, allowedEntry, unknownEntry]

end Example

/-! ## Searches that do not read the attributes -/

/-- The entry without its attributes. -/
def Entry.core (e : Entry) : Entry := { e with attributes := [] }

/-- The search of the library does not read the attributes of the entries: two
databases that differ only in attributes get the same answer. -/
def Lib.IgnoresAttributes (lib : Lib) : Prop :=
  ∀ (db : Database) (es : List Entry) (text : QString),
    es.map Entry.core = db.entries.map Entry.core →
    lib.search { db with entries := es } text = lib.search db text

/-! ## Properties -/

open Service AccessTable

theorem isEmpty_eq_true_iff (s : QString) : s.isEmpty = true ↔ s = [] := by
  cases s <;> simp

theorem AccessTable.fallsInRow_rowOf (config : Option EntryConfig) (H S R : QString) :
    fallsInRow config H S R (rowOf config H S R) := by
  cases config with
  | none =>
    refine ⟨rfl, ?_⟩
    intro j hj
    exact absurd hj (by simp [rowOf])
  | some c =>
    have r0 : ¬ rowHolds (some c) H S R 0 := by simp [rowHolds]
    have r1 : ¬ (H ∈ c.allowedHosts ∧ (S = [] ∨ S ∈ c.allowedHosts)) →
        ¬ rowHolds (some c) H S R 1 := by
      rintro h ⟨d, hd, h2⟩
      cases hd
      exact h h2
    have r2 : ¬ (H ∈ c.deniedHosts ∨ (S ≠ [] ∧ S ∈ c.deniedHosts)) →
        ¬ rowHolds (some c) H S R 2 := by
      rintro h ⟨d, hd, h2⟩
      cases hd
      exact h h2
    have r3 : ¬ (R ≠ [] ∧ c.realm ≠ R) → ¬ rowHolds (some c) H S R 3 := by
      rintro h ⟨d, hd, h2⟩
      cases hd
      exact h h2
    simp only [rowOf]
    split_ifs with h1 h2 h3
    · refine ⟨⟨c, rfl, h1⟩, ?_⟩
      intro j hj
      fin_cases j
      · exact r0
      all_goals exact absurd hj (by decide)
    · refine ⟨⟨c, rfl, h2⟩, ?_⟩
      intro j hj
      fin_cases j
      · exact r0
      · exact r1 h1
      all_goals exact absurd hj (by decide)
    · refine ⟨⟨c, rfl, h3⟩, ?_⟩
      intro j hj
      fin_cases j
      · exact r0
      · exact r1 h1
      · exact r2 h2
      all_goals exact absurd hj (by decide)
    · refine ⟨trivial, ?_⟩
      intro j hj
      fin_cases j
      · exact r0
      · exact r1 h1
      · exact r2 h2
      · exact r3 h3
      · exact absurd hj (by decide)

theorem AccessTable.fallsInRow_unique (config : Option EntryConfig) (H S R : QString)
    (i j : Fin 5) (hi : fallsInRow config H S R i) (hj : fallsInRow config H S R j) :
    i = j := by
  rcases lt_trichotomy i j with h | h | h
  · exact absurd hi.1 (hj.2 i h)
  · exact h
  · exact absurd hj.1 (hi.2 j h)

theorem Service.checkAccess_eq_rowOf (E : Entry) (H S R : QString) :
    checkAccess E H S R = rowOutcome (rowOf (EntryConfig.load E) H S R) := by
  unfold checkAccess
  cases hc : EntryConfig.load E with
  | none => rfl
  | some c =>
    have b1 : (c.isAllowed H && (S.isEmpty || c.isAllowed S)) = true ↔
        (H ∈ c.allowedHosts ∧ (S = [] ∨ S ∈ c.allowedHosts)) := by
      simp [EntryConfig.isAllowed, isEmpty_eq_true_iff]
    have b2 : (c.isDenied H || (!S.isEmpty && c.isDenied S)) = true ↔
        (H ∈ c.deniedHosts ∨ (S ≠ [] ∧ S ∈ c.deniedHosts)) := by
      cases S <;> simp [EntryConfig.isDenied]
    have b3 : (!R.isEmpty && c.realm != R) = true ↔ (R ≠ [] ∧ c.realm ≠ R) := by
      cases R <;> simp
    simp only [b1, b2, b3, rowOf]
    split_ifs <;> rfl

/-- C1: for every entry, request host, submit-host and realm, the input falls in
exactly one row of the access table of section 4.5.2 (the first row whose condition
holds), and `checkAccess` returns the outcome of that row. -/
theorem checkAccess_is_first_matching_row (E : Entry) (H S R : QString) :
    ∃ i : Fin 5, fallsInRow (EntryConfig.load E) H S R i
      ∧ (∀ j : Fin 5, fallsInRow (EntryConfig.load E) H S R j → j = i)
      ∧ checkAccess E H S R = rowOutcome i :=
  ⟨rowOf (EntryConfig.load E) H S R, fallsInRow_rowOf _ H S R,
    fun j hj => fallsInRow_unique _ H S R j _ hj (fallsInRow_rowOf _ H S R),
    checkAccess_eq_rowOf E H S R⟩


/-! ### Pointers of the database walk -/

theorem Database.mem_entriesOf {db : Database} {g p : Nat} (h : p ∈ db.entriesOf g) :
    p < db.entries.length := by
  unfold Database.entriesOf at h
  exact List.mem_range.mp (List.mem_filter.mp h).1

theorem Database.mem_entriesRecursive {db : Database} {p : Nat}
    (h : p ∈ db.entriesRecursive) : p < db.entries.length := by
  unfold Database.entriesRecursive at h
  obtain ⟨g, _, hg⟩ := List.mem_flatMap.mp h
  exact Database.mem_entriesOf hg


/-! ### Attributes and the stored permission -/

theorem find_map_set_key (k : QString) (v : AttrValue) (l : List (QString × AttrValue))
    (h : l.any (fun kv => kv.1 == k) = true) :
    ((l.map (fun kv => if kv.1 == k then (k, v) else kv)).find? (fun kv => kv.1 == k))
      = some (k, v) := by
  induction l with
  | nil => simp at h
  | cons a l ih =>
    rw [List.map_cons, List.find?_cons]
    cases ha : (a.1 == k)
    · have hl : l.any (fun kv => kv.1 == k) = true := by
        rw [List.any_cons, ha, Bool.false_or] at h
        exact h
      simp only [Bool.false_eq_true, if_false, ha]
      exact ih hl
    · simp only [if_true]
      have : ((k, v).1 == k) = true := by simp
      rw [this]

theorem find_append_new_key (k : QString) (v : AttrValue) (l : List (QString × AttrValue))
    (h : l.any (fun kv => kv.1 == k) = false) :
    ((l ++ [(k, v)]).find? (fun kv => kv.1 == k)) = some (k, v) := by
  induction l with
  | nil => simp
  | cons a l ih =>
    rw [List.any_cons, Bool.or_eq_false_iff] at h
    rw [List.cons_append, List.find?_cons, h.1]
    exact ih h.2

theorem Entry.attrValue_attrSet (e : Entry) (k : QString) (v : AttrValue) :
    (e.attrSet k v).attrValue k = some v := by
  unfold Entry.attrSet Entry.attrValue
  cases h : e.attrContains k
  · unfold Entry.attrContains at h
    simp only [Bool.false_eq_true, if_false, find_append_new_key k v _ h, Option.map_some']
  · unfold Entry.attrContains at h
    simp only [if_true, find_map_set_key k v _ h, Option.map_some']

theorem EntryConfig.load_save (c : EntryConfig) (e : Entry) :
    EntryConfig.load (c.save e) = some c := by
  unfold EntryConfig.load EntryConfig.save
  rw [Entry.attrValue_attrSet]

theorem EntryConfig.mem_denied_deny (c : EntryConfig) (h : QString) :
    h ∈ (c.deny h).deniedHosts := by
  unfold EntryConfig.deny
  by_cases hm : h ∈ c.deniedHosts <;> simp [hm]

theorem EntryConfig.mem_denied_deny_of_mem (c : EntryConfig) (h g : QString)
    (hm : g ∈ c.deniedHosts) : g ∈ (c.deny h).deniedHosts := by
  unfold EntryConfig.deny
  by_cases hh : h ∈ c.deniedHosts <;> simp [hh, hm]

/-- After a remembered rejection the stored permission of the entry denies the host
and the non-empty submit-host. -/
theorem Service.rememberEntry_rejected (H S R : QString) (e : Entry) :
    ∃ c, EntryConfig.load (rememberEntry QDialog.Rejected H S R e) = some c
      ∧ H ∈ c.deniedHosts ∧ (S ≠ [] → S ∈ c.deniedHosts) := by
  unfold rememberEntry
  simp only [EntryConfig.load_save]
  refine ⟨_, rfl, ?_, ?_⟩
  · have hne : ¬ (QDialog.Rejected = QDialog.Accepted) := by decide
    simp only [if_neg hne, if_true]
    split_ifs <;>
      simp [EntryConfig.setRealm, EntryConfig.mem_denied_deny,
        EntryConfig.mem_denied_deny_of_mem]
  · intro hS
    have hne : ¬ (QDialog.Rejected = QDialog.Accepted) := by decide
    simp only [if_neg hne, if_true]
    have hSe : S.isEmpty = false := by cases S <;> simp_all
    by_cases hHS : H = S
    · subst hHS
      simp [EntryConfig.setRealm, EntryConfig.mem_denied_deny]
      split_ifs <;> simp [EntryConfig.mem_denied_deny]
    · have : (!S.isEmpty && H != S) = true := by simp [hSe, hHS]
      simp only [this, if_true]
      split_ifs <;> simp [EntryConfig.setRealm, EntryConfig.mem_denied_deny]

/-! ### Rewriting entries through pointers -/

theorem db_entry_modifyEntry (db : Database) (p q : Nat) (f : Entry → Entry) :
    (db.modifyEntry p f).entry q
      = if q = p ∧ p < db.entries.length then f (db.entry p) else db.entry q := by
  unfold Database.modifyEntry Database.entry
  simp only [List.getD_eq_getElem?_getD, List.getElem?_set]
  by_cases hqp : p = q
  · subst hqp
    by_cases hlt : p < db.entries.length
    · simp [hlt]
    · simp [hlt, List.getElem?_eq_none (Nat.le_of_not_lt hlt)]
  · have : ¬ (q = p ∧ p < db.entries.length) := fun h => hqp h.1.symm
    simp [hqp, this]

theorem Service.currentDatabase_setDatabase (s : Service) (db db1 : Database)
    (h : s.currentDatabase = some db) : (s.setDatabase db1).currentDatabase = some db1 := by
  unfold Service.currentDatabase at h
  unfold Service.setDatabase
  cases hw : s.currentDatabaseWidget with
  | none => simp [hw] at h
  | some w => simp [Service.currentDatabase]

theorem Service.entry_modifyEntry (s : Service) (p q : Nat) (f : Entry → Entry) :
    (s.modifyEntry p f).entry q
      = if q = p ∧ p < s.entryCount then f (s.entry p) else s.entry q := by
  unfold Service.modifyEntry Service.entryCount
  cases hdb : s.currentDatabase with
  | none =>
    simp only [Nat.not_lt_zero, and_false, if_false]
  | some db =>
    simp only [Service.entry, Service.currentDatabase_setDatabase s db _ hdb, hdb,
      db_entry_modifyEntry]

theorem Service.entryCount_modifyEntry (s : Service) (p : Nat) (f : Entry → Entry) :
    (s.modifyEntry p f).entryCount = s.entryCount := by
  unfold Service.modifyEntry Service.entryCount
  cases hdb : s.currentDatabase with
  | none => simp [hdb]
  | some db =>
    simp [Service.currentDatabase_setDatabase s db _ hdb, Database.modifyEntry]

theorem Service.entryCount_rememberAll (res : Int) (H S R : QString) (ps : List Nat)
    (s : Service) : (rememberAll res H S R ps s).entryCount = s.entryCount := by
  induction ps generalizing s with
  | nil => rfl
  | cons q rest ih =>
    simp only [rememberAll]
    rw [ih, Service.entryCount_modifyEntry]

theorem Service.entry_rememberAll_of_not_mem (res : Int) (H S R : QString) (ps : List Nat)
    (s : Service) (p : Nat) (hp : p ∉ ps) :
    (rememberAll res H S R ps s).entry p = s.entry p := by
  induction ps generalizing s with
  | nil => rfl
  | cons q rest ih =>
    simp only [rememberAll]
    have hq : p ≠ q := fun h => hp (h ▸ List.mem_cons_self _ _)
    have hr : p ∉ rest := fun h => hp (List.mem_cons_of_mem _ h)
    rw [ih _ hr, Service.entry_modifyEntry]
    simp [hq]

theorem Service.entry_rememberAll_of_mem (res : Int) (H S R : QString) (ps : List Nat)
    (s : Service) (p : Nat) (hp : p ∈ ps) (hlt : p < s.entryCount) :
    ∃ e, (rememberAll res H S R ps s).entry p = rememberEntry res H S R e := by
  induction ps generalizing s with
  | nil => simp at hp
  | cons q rest ih =>
    simp only [rememberAll]
    by_cases hr : p ∈ rest
    · exact ih _ hr (by rw [Service.entryCount_modifyEntry]; exact hlt)
    · have hq : p = q := by
        rcases List.mem_cons.mp hp with h | h
        · exact h
        · exact absurd h hr
      subst hq
      refine ⟨s.entry p, ?_⟩
      rw [Service.entry_rememberAll_of_not_mem _ _ _ _ _ _ _ hr, Service.entry_modifyEntry]
      simp [hlt]

/-! ### The search returns pointers into the database -/

theorem Service.searchLoop_mem (lib : Lib) (db : Database) (fuel : Nat) (hostname : QString)
    (entries : List Nat) (tried : List QString) (r : List Nat × List QString)
    (h : searchLoop lib db fuel hostname entries tried = some r) (p : Nat) (hp : p ∈ r.1) :
    p ∈ entries ∨ p < db.entries.length := by
  induction fuel generalizing hostname entries tried with
  | zero => simp [searchLoop] at h
  | succ n ih =>
    simp only [searchLoop] at h
    have hpass : ∀ q, q ∈ searchPass lib db hostname entries →
        q ∈ entries ∨ q < db.entries.length := by
      intro q hq
      unfold searchPass at hq
      rcases List.mem_append.mp hq with hq | hq
      · exact Or.inl hq
      · exact Or.inr (lib.search_valid db hostname q (List.mem_filter.mp hq).1)
    split_ifs at h with hc
    · rcases ih _ _ _ h with h1 | h1
      · exact hpass p h1
      · exact Or.inr h1
    · cases h
      exact hpass p hp

theorem Service.searchEntries_valid (lib : Lib) (s : Service) (text : QString) (p : Nat)
    (hp : p ∈ searchEntries lib s text) : p < s.entryCount := by
  unfold searchEntries searchEntriesTraced at hp
  unfold Service.entryCount Service.currentDatabase
  cases hw : s.currentDatabaseWidget with
  | none => simp [hw] at hp
  | some w =>
    cases hd : w.database with
    | none => simp [hw, hd] at hp
    | some db =>
      simp only [hw, hd] at hp ⊢
      cases hr : db.rootGroup with
      | none => simp [hr] at hp
      | some g =>
        simp only [hr] at hp
        cases hl : searchLoop lib db ((lib.host text).length + 1) (lib.host text) [] [] with
        | none => simp [hl] at hp
        | some r =>
          simp only [hl] at hp
          rcases Service.searchLoop_mem lib db _ _ _ _ r hl p hp with h | h
          · simp at h
          · exact h

/-! ### The first loop of `findMatchingEntries` -/

theorem Service.checkEntries_eq (s : Service) (H S R : QString) (ps : List Nat)
    (result : List ProtocolEntry) (toConfirm : List Nat) :
    checkEntries s H S R ps (result, toConfirm)
      = (result ++ (ps.filter (fun p => checkAccess (s.entry p) H S R = Access.Allowed)).map
            (fun p => prepareEntry (s.entry p)),
         toConfirm ++ ps.filter (fun p => checkAccess (s.entry p) H S R = Access.Unknown)) := by
  induction ps generalizing result toConfirm with
  | nil => simp [checkEntries]
  | cons p rest ih =>
    simp only [checkEntries]
    cases hacc : checkAccess (s.entry p) H S R
    · simp [ih, List.filter_cons, hacc]
    · simp [ih, List.filter_cons, hacc, autoAccept]
    · simp [ih, List.filter_cons, hacc]

/-! ### Claims on `findMatchingEntries` -/

open Example in
/-- C2: on the vault with one entry whose stored permission denies `example.com` and
one entry without permission, a request for `https://example.com/` that the user
accepts (without remember) returns the denied entry too: `checkAccess` is `Denied`
for entry 0, only entry 1 is put to the user, and the returned list holds both. -/
theorem findMatchingEntries_returns_denied_entry :
    checkAccess ((openVault [deniedEntry, unknownEntry]).entry 0)
        (qtLib.host pageUrl) (qtLib.host []) [] = Access.Denied
    ∧ searchEntries qtLib (openVault [deniedEntry, unknownEntry]) pageUrl = [0, 1]
    ∧ (findMatchingEntries qtLib (openVault [deniedEntry, unknownEntry])
        { res := QDialog.Accepted, remember := false } [] pageUrl [] []).asked = some [1]
    ∧ (findMatchingEntries qtLib (openVault [deniedEntry, unknownEntry])
        { res := QDialog.Accepted, remember := false } [] pageUrl [] []).result
      = [prepareEntry deniedEntry, prepareEntry unknownEntry] := by
  decide

open Example in
/-- C3, as stated, fails: with an Allowed and an Unknown candidate, a rejection with
remember=true still returns the Allowed candidate, so the list is not empty. -/
theorem findMatchingEntries_reject_remember_not_empty :
    (∃ p ∈ searchEntries qtLib (openVault [allowedEntry, unknownEntry]) pageUrl,
        checkAccess ((openVault [allowedEntry, unknownEntry]).entry p)
          (qtLib.host pageUrl) (qtLib.host formUrl) [] = Access.Unknown)
    ∧ (findMatchingEntries qtLib (openVault [allowedEntry, unknownEntry])
        { res := QDialog.Rejected, remember := true } [] pageUrl formUrl []).result
      = [prepareEntry allowedEntry]
    ∧ (findMatchingEntries qtLib (openVault [allowedEntry, unknownEntry])
        { res := QDialog.Rejected, remember := true } [] pageUrl formUrl []).result ≠ [] := by
  refine ⟨⟨1, by decide, by decide⟩, by decide, by decide⟩

/-- C3, amended: when at least one candidate is Unknown and the user rejects with
remember=true, `findMatchingEntries` returns exactly the prepared candidates that
were Allowed, in search order (so the empty list when none was Allowed), and
afterwards the stored permission of every entry returned by the search has the
request host and the non-empty submit-host in its denied hosts. -/
theorem findMatchingEntries_reject_remember (lib : Lib) (s : Service)
    (id url submitUrl realm : QString)
    (h : ∃ p ∈ searchEntries lib s url,
      checkAccess (s.entry p) (lib.host url) (lib.host submitUrl) realm = Access.Unknown) :
    (findMatchingEntries lib s { res := QDialog.Rejected, remember := true }
        id url submitUrl realm).result
      = ((searchEntries lib s url).filter (fun p =>
            checkAccess (s.entry p) (lib.host url) (lib.host submitUrl) realm = Access.Allowed)).map
          (fun p => prepareEntry (s.entry p))
    ∧ ∀ p ∈ searchEntries lib s url,
        ∃ c, EntryConfig.load ((findMatchingEntries lib s
              { res := QDialog.Rejected, remember := true } id url submitUrl realm).service.entry p)
            = some c
          ∧ lib.host url ∈ c.deniedHosts
          ∧ (lib.host submitUrl ≠ [] → lib.host submitUrl ∈ c.deniedHosts) := by
  obtain ⟨p0, hp0, hu0⟩ := h
  have hne : ((searchEntries lib s url).filter (fun p =>
      checkAccess (s.entry p) (lib.host url) (lib.host submitUrl) realm = Access.Unknown)).isEmpty
      = false := by
    have : p0 ∈ (searchEntries lib s url).filter (fun p =>
        checkAccess (s.entry p) (lib.host url) (lib.host submitUrl) realm = Access.Unknown) :=
      List.mem_filter.mpr ⟨hp0, by simpa using hu0⟩
    cases hl : (searchEntries lib s url).filter (fun p =>
        checkAccess (s.entry p) (lib.host url) (lib.host submitUrl) realm = Access.Unknown) with
    | nil => rw [hl] at this; simp at this
    | cons a l => rfl
  have hrej : ¬ (QDialog.Rejected = QDialog.Accepted) := by decide
  unfold findMatchingEntries
  simp only [Service.checkEntries_eq, List.nil_append, hne, Bool.not_false, if_true, if_neg hrej]
  refine ⟨trivial, ?_⟩
  intro p hp
  obtain ⟨e, he⟩ := Service.entry_rememberAll_of_mem QDialog.Rejected (lib.host url)
    (lib.host submitUrl) realm (searchEntries lib s url) s p hp
    (Service.searchEntries_valid lib s url p hp)
  rw [he]
  exact Service.rememberEntry_rejected _ _ _ e

open Example in
/-- The amended C3 at the vault with an Allowed and an Unknown candidate. -/
theorem findMatchingEntries_reject_remember_witness :
    (findMatchingEntries qtLib (openVault [allowedEntry, unknownEntry])
        { res := QDialog.Rejected, remember := true } [] pageUrl formUrl []).result
      = ((searchEntries qtLib (openVault [allowedEntry, unknownEntry]) pageUrl).filter (fun p =>
            checkAccess ((openVault [allowedEntry, unknownEntry]).entry p)
              (qtLib.host pageUrl) (qtLib.host formUrl) [] = Access.Allowed)).map
          (fun p => prepareEntry ((openVault [allowedEntry, unknownEntry]).entry p))
    ∧ ∀ p ∈ searchEntries qtLib (openVault [allowedEntry, unknownEntry]) pageUrl,
        ∃ c, EntryConfig.load ((findMatchingEntries qtLib (openVault [allowedEntry, unknownEntry])
              { res := QDialog.Rejected, remember := true } [] pageUrl formUrl []).service.entry p)
            = some c
          ∧ qtLib.host pageUrl ∈ c.deniedHosts
          ∧ (qtLib.host formUrl ≠ [] → qtLib.host formUrl ∈ c.deniedHosts) :=
  findMatchingEntries_reject_remember qtLib (openVault [allowedEntry, unknownEntry])
    [] pageUrl formUrl [] ⟨1, by decide, by decide⟩

/-! ### The domain peel -/

open DomainPeel

theorem labels_ne_nil (h : QString) : labels h ≠ [] := by
  cases h with
  | nil => simp [labels]
  | cons c cs =>
    unfold labels
    split_ifs
    · simp
    · split <;> simp

theorem joinLabels_cons_cons (c : Char) (l : QString) (ls : List QString) :
    joinLabels ((c :: l) :: ls) = c :: joinLabels (l :: ls) := by
  cases ls <;> simp [joinLabels]

theorem joinLabels_labels (h : QString) : joinLabels (labels h) = h := by
  induction h with
  | nil => simp [labels, joinLabels]
  | cons c cs ih =>
    unfold labels
    split_ifs with hc
    · obtain ⟨l, ls, hl⟩ := List.exists_cons_of_ne_nil (labels_ne_nil cs)
      rw [hl] at ih ⊢
      simp [joinLabels, ih, hc]
    · obtain ⟨l, ls, hl⟩ := List.exists_cons_of_ne_nil (labels_ne_nil cs)
      rw [hl] at ih ⊢
      simp only [joinLabels_cons_cons, ih]

theorem labels_no_dot (h : QString) (hd : '.' ∉ h) : labels h = [h] := by
  induction h with
  | nil => simp [labels]
  | cons c cs ih =>
    have hc : ¬ c = '.' := fun e => hd (e ▸ List.mem_cons_self _ _)
    have hcs : '.' ∉ cs := fun e => hd (List.mem_cons_of_mem _ e)
    unfold labels
    rw [if_neg hc, ih hcs]

theorem labels_dot (h : QString) (hd : '.' ∈ h) :
    ∃ l, labels h = l :: labels (h.drop (List.indexOf '.' h + 1)) := by
  induction h with
  | nil => simp at hd
  | cons c cs ih =>
    by_cases hc : c = '.'
    · subst hc
      refine ⟨[], ?_⟩
      simp [labels, List.indexOf_cons_self]
    · have hcs : '.' ∈ cs := by
        rcases List.mem_cons.mp hd with e | e
        · exact absurd e.symm hc
        · exact e
      obtain ⟨l, hl⟩ := ih hcs
      refine ⟨c :: l, ?_⟩
      have hidx : List.indexOf '.' (c :: cs) = List.indexOf '.' cs + 1 :=
        List.indexOf_cons_ne _ (fun e => hc e)
      conv_lhs => unfold labels
      rw [if_neg hc, hl, hidx]
      simp

theorem removeFirstDomain_no_dot (h : QString) (hd : '.' ∉ h) :
    removeFirstDomain h = (false, h) := by
  unfold removeFirstDomain indexOf
  simp [hd]

theorem removeFirstDomain_dot (h : QString) (hd : '.' ∈ h) :
    removeFirstDomain h
      = (!(h.drop (List.indexOf '.' h + 1)).isEmpty, h.drop (List.indexOf '.' h + 1)) := by
  unfold removeFirstDomain indexOf mid
  have h0 : ¬ ((List.indexOf '.' h : Nat) : Int) < 0 := by omega
  have h1 : (((List.indexOf '.' h : Nat) : Int) + 1).toNat = List.indexOf '.' h + 1 := by omega
  simp only [if_pos hd, if_neg h0, h1]

theorem removeFirstDomain_length (h : QString) (hr : (removeFirstDomain h).1 = true) :
    (removeFirstDomain h).2.length < h.length := by
  by_cases hd : '.' ∈ h
  · rw [removeFirstDomain_dot h hd]
    have : List.indexOf '.' h < h.length := List.indexOf_lt_length.mpr hd
    simp only [List.length_drop]
    omega
  · rw [removeFirstDomain_no_dot h hd] at hr
    simp at hr

theorem range_eq_zero_cons_tail (n : Nat) (hn : 0 < n) :
    List.range n = 0 :: (List.range n).tail := by
  cases n with
  | zero => omega
  | succ m => rw [List.range_succ_eq_map]; rfl

/-- The candidate hosts, step by step: `removeFirstDomain` yields the next one. -/
theorem candidateHosts_step (h : QString) :
    candidateHosts h
      = h :: (if (removeFirstDomain h).1 then candidateHosts (removeFirstDomain h).2 else []) := by
  by_cases hd : '.' ∈ h
  · rw [removeFirstDomain_dot h hd]
    obtain ⟨l, hl⟩ := labels_dot h hd
    generalize hh : h.drop (List.indexOf '.' h + 1) = h1 at hl
    have hlen : 0 < (labels h1).length := List.length_pos.mpr (labels_ne_nil h1)
    have hpeel : ∀ k, peel h (k + 1) = peel h1 k := by
      intro k
      simp [peel, hl]
    have htail : ((List.range (labels h).length).tail.map (peel h))
        = h1 :: ((List.range (labels h1).length).tail.map (peel h1)) := by
      rw [hl, List.length_cons, List.range_succ_eq_map, List.tail_cons, List.map_map]
      have : (peel h ∘ Nat.succ) = peel h1 := funext hpeel
      rw [this]
      conv_lhs => rw [range_eq_zero_cons_tail _ hlen]
      rw [List.map_cons]
      simp [peel, joinLabels_labels]
    unfold candidateHosts
    rw [htail]
    cases h1 with
    | nil => simp
    | cons c cs => simp
  · rw [removeFirstDomain_no_dot h hd]
    unfold candidateHosts
    rw [labels_no_dot h hd]
    simp [List.range_succ_eq_map]

theorem searchPass_nil_acc (lib : Lib) (db : Database) (hostname : QString) :
    searchPass lib db hostname [] = (lib.search db hostname).filter (matchesHostname lib db hostname) := by
  simp [searchPass]

/-- The loop of `searchEntries` on enough fuel: it tries the candidate hosts in order
and stops at the first with a match. -/
theorem searchLoop_eq (lib : Lib) (db : Database) (fuel : Nat) (h : QString)
    (tried0 : List QString) (hf : h.length < fuel) :
    searchLoop lib db fuel h [] tried0
      = some (returned (fun c => searchPass lib db c []) (candidateHosts h),
              tried0 ++ tried (fun c => searchPass lib db c []) (candidateHosts h)) := by
  induction fuel generalizing h tried0 with
  | zero => omega
  | succ n ih =>
    rw [candidateHosts_step h]
    simp only [searchLoop]
    cases hp : (searchPass lib db h []).isEmpty
    · simp [returned, tried, firstHit, hp]
    · have hnil : searchPass lib db h [] = [] := List.isEmpty_iff.mp hp
      cases hr : (removeFirstDomain h).1
      · simp [returned, tried, firstHit, hp, hnil]
      · have hlt := removeFirstDomain_length h hr
        simp only [Bool.and_self, if_true, hnil]
        rw [ih (removeFirstDomain h).2 (tried0 ++ [h]) (by omega)]
        simp [returned, tried, firstHit, hp, List.append_assoc]

/-- C4: for a request whose URL has host `h`, on a database with a root group,
`searchEntries` tries the candidate hosts `h`, `h` with one leading label removed,
with two removed, and so on, in this order, up to and including the first candidate
with a match; it returns exactly the matches of that candidate, and the empty list
when no candidate has a match. The loop ends on every input: one step more than the
length of `h`, or any larger number of steps, gives this result. The candidates after
`h` are never empty, a host without a dot has no further candidate, and for
`a.b.example.com` the candidates are `a.b.example.com`, `b.example.com`,
`example.com`, `com`. -/
theorem searchEntries_tries_candidate_hosts (lib : Lib) (s : Service) (text : QString)
    (db : Database) (hdb : s.currentDatabase = some db) (hroot : db.rootGroup ≠ none) :
    searchEntriesTraced lib s text
        = some (returned (fun c => (lib.search db c).filter (matchesHostname lib db c))
                  (candidateHosts (lib.host text)),
                tried (fun c => (lib.search db c).filter (matchesHostname lib db c))
                  (candidateHosts (lib.host text)))
    ∧ searchEntries lib s text
        = returned (fun c => (lib.search db c).filter (matchesHostname lib db c))
            (candidateHosts (lib.host text))
    ∧ (∀ fuel, (lib.host text).length < fuel →
        searchLoop lib db fuel (lib.host text) [] []
          = some (returned (fun c => (lib.search db c).filter (matchesHostname lib db c))
                    (candidateHosts (lib.host text)),
                  tried (fun c => (lib.search db c).filter (matchesHostname lib db c))
                    (candidateHosts (lib.host text))))
    ∧ (∀ c ∈ (candidateHosts (lib.host text)).tail, c ≠ [])
    ∧ ('.' ∉ lib.host text → candidateHosts (lib.host text) = [lib.host text])
    ∧ candidateHosts (qs "a.b.example.com")
        = [qs "a.b.example.com", qs "b.example.com", qs "example.com", qs "com"] := by
  have hpass : (fun c => searchPass lib db c [])
      = (fun c => (lib.search db c).filter (matchesHostname lib db c)) :=
    funext (searchPass_nil_acc lib db)
  have hloop : ∀ fuel, (lib.host text).length < fuel →
      searchLoop lib db fuel (lib.host text) [] []
        = some (returned (fun c => (lib.search db c).filter (matchesHostname lib db c))
                  (candidateHosts (lib.host text)),
                tried (fun c => (lib.search db c).filter (matchesHostname lib db c))
                  (candidateHosts (lib.host text))) := by
    intro fuel hf
    rw [searchLoop_eq lib db fuel (lib.host text) [] hf, hpass]
    simp
  have htr : searchEntriesTraced lib s text
      = searchLoop lib db ((lib.host text).length + 1) (lib.host text) [] [] := by
    unfold Service.currentDatabase at hdb
    unfold searchEntriesTraced
    cases hw : s.currentDatabaseWidget with
    | none => simp [hw] at hdb
    | some w =>
      simp only [hw] at hdb
      simp only [hdb]
      cases hr : db.rootGroup with
      | none => exact absurd hr hroot
      | some g => rfl
  refine ⟨?_, ?_, hloop, ?_, ?_, by decide⟩
  · rw [htr, hloop _ (Nat.lt_succ_self _)]
  · unfold searchEntries
    rw [htr, hloop _ (Nat.lt_succ_self _)]
  · intro c hc
    unfold candidateHosts at hc
    rw [List.tail_cons] at hc
    have := List.mem_takeWhile_imp hc
    intro hnil
    subst hnil
    simp at this
  · intro hd
    rw [candidateHosts_step, removeFirstDomain_no_dot _ hd]
    simp

open Example in
/-- C4 at scenario S2: the entry titled `example.com` is found for the page
`https://foo.bar.example.com/` on the second peel. -/
theorem searchEntries_tries_candidate_hosts_witness :
    searchEntriesTraced qtLib (openVault [exampleComEntry]) (qs "https://foo.bar.example.com/")
        = some ([0], [qs "foo.bar.example.com", qs "bar.example.com", qs "example.com"])
    ∧ searchEntriesTraced qtLib (openVault [exampleComEntry]) (qs "https://foo.bar.example.com/")
        = some (returned (fun c => (qtLib.search (rootOnly [exampleComEntry]) c).filter
                  (matchesHostname qtLib (rootOnly [exampleComEntry]) c))
                  (candidateHosts (qtLib.host (qs "https://foo.bar.example.com/"))),
                tried (fun c => (qtLib.search (rootOnly [exampleComEntry]) c).filter
                  (matchesHostname qtLib (rootOnly [exampleComEntry]) c))
                  (candidateHosts (qtLib.host (qs "https://foo.bar.example.com/")))) :=
  ⟨by decide,
   (searchEntries_tries_candidate_hosts qtLib (openVault [exampleComEntry])
      (qs "https://foo.bar.example.com/")
      (rootOnly [exampleComEntry]) rfl (by decide)).1⟩

/-! ### The per-entry match -/

open EntryMatch

theorem qContains_iff (s sub : QString) : qContains s sub = true ↔ sub <:+: s := by
  unfold qContains
  rw [List.any_eq_true, List.infix_iff_prefix_suffix]
  constructor
  · rintro ⟨t, ht, hp⟩
    exact ⟨t, List.isPrefixOf_iff_prefix.mp hp, (List.mem_tails _ _).mp ht⟩
  · rintro ⟨t, hp, ht⟩
    exact ⟨t, (List.mem_tails _ _).mpr ht, List.isPrefixOf_iff_prefix.mpr hp⟩

theorem toLower_take (n : Nat) (t : QString) : toLower (t.take n) = (toLower t).take n := by
  unfold toLower
  rw [List.map_take]

theorem matchUrlScheme_iff (t : QString) : matchUrlScheme t = true ↔ startsWithScheme t := by
  unfold matchUrlScheme startsWithScheme schemes
  simp only [toLower_take, Bool.or_eq_true, List.isPrefixOf_iff_prefix, List.prefix_take_iff,
    List.mem_cons, List.mem_singleton, exists_eq_or_imp, exists_eq_left, List.not_mem_nil,
    false_and, exists_false, or_false]
  have l1 : (qs "http://").length ≤ 8 := by decide
  have l2 : (qs "https://").length ≤ 8 := by decide
  have l3 : (qs "ftp://").length ≤ 8 := by decide
  have l4 : (qs "ftps://").length ≤ 8 := by decide
  simp only [l1, l2, l3, l4, and_true]
  tauto

theorem matchesHostname_iff (lib : Lib) (db : Database) (h : QString) (p : Nat) :
    matchesHostname lib db h p = true ↔ keeps lib.host h (db.entry p) := by
  unfold matchesHostname keeps
  simp only [Bool.or_eq_true, Bool.and_eq_true, qContains_iff, matchUrlScheme_iff]
  tauto

/-- C5, as stated, fails: two entries that the vault search for `example.com` returns
both and that differ only in the letter case of the title are not both kept;
`searchEntries` keeps the one whose title is written as the host is. -/
theorem searchEntries_title_case_matters :
    toLower Example.upperTitleEntry.title = toLower Example.lowerTitleEntry.title
    ∧ Example.upperTitleEntry.url = Example.lowerTitleEntry.url
    ∧ qtLib.search (Example.rootOnly [Example.lowerTitleEntry, Example.upperTitleEntry])
        (qtLib.host Example.pageUrl) = [0, 1]
    ∧ searchPass qtLib (Example.rootOnly [Example.lowerTitleEntry, Example.upperTitleEntry])
        (qtLib.host Example.pageUrl) [] = [0]
    ∧ searchEntries qtLib (Example.openVault [Example.lowerTitleEntry, Example.upperTitleEntry])
        Example.pageUrl = [0] := by
  decide

/-- C5, amended: in one search pass for host `h` the entries kept are, in the order of
the vault search, those it returned for which `h` contains the title as written, or
`h` contains the URL as written, or the title or URL starts with `http://`,
`https://`, `ftp://` or `ftps://` (this test alone ignores case) and `h` contains the
host parsed from it. Changing the letter case of a text does not change whether it
passes the scheme test. -/
theorem searchPass_keeps_iff (lib : Lib) (db : Database) (h : QString) :
    (∀ p, p ∈ searchPass lib db h []
        ↔ p ∈ lib.search db h ∧ keeps lib.host h (db.entry p))
    ∧ List.Sublist (searchPass lib db h []) (lib.search db h)
    ∧ (∀ t1 t2 : QString, toLower t1 = toLower t2 → matchUrlScheme t1 = matchUrlScheme t2)
    ∧ (∀ t : QString, matchUrlScheme t = true ↔ startsWithScheme t) := by
  refine ⟨?_, ?_, ?_, matchUrlScheme_iff⟩
  · intro p
    rw [searchPass_nil_acc, List.mem_filter, matchesHostname_iff]
  · rw [searchPass_nil_acc]
    exact List.filter_sublist _
  · intro t1 t2 ht
    unfold matchUrlScheme
    simp only [toLower_take, ht]

/-! ### The device listener -/

open DeviceListener in
/-- C6: the raw event `(true, 0xA, 0xB)` raised at time 0 leads to one emission at
50 ms, but its three arguments are read through references to the parameters of a
call of the connected lambda that returned at time 0: the emission does not carry
`(true, 0xA, 0xB)` as values, what it carries is not defined. -/
theorem facade_emits_through_dead_references :
    (processTimers 50 (onDevicePlugged 0 true 0xA 0xB {})).emitted = [(50, none)]
    ∧ (processTimers 50 (onDevicePlugged 0 true 0xA 0xB {})).emitted
        ≠ [(50, some { state := true, ctx := 0xA, device := 0xB })]
    ∧ (processTimers 49 (onDevicePlugged 0 true 0xA 0xB {})).emitted = [] := by
  decide

/-! ### The libusb backend -/

open DeviceListenerLibUsb LibUsb

theorem inv_new : OneCallback {} := by
  refine ⟨by decide, by decide, Or.inl rfl⟩

theorem deregister_usb (l : DeviceListenerLibUsb) :
    (deregisterHotplugCallback l).usb
      = if l.m_ctx then l.usb.deregisterCallback l.m_callbackRef else l.usb := by
  unfold deregisterHotplugCallback
  dsimp only
  split_ifs <;> rfl

theorem deregister_fields (l : DeviceListenerLibUsb) :
    (deregisterHotplugCallback l).m_callbackRef = l.m_callbackRef
    ∧ (deregisterHotplugCallback l).m_ctx = l.m_ctx
    ∧ (deregisterHotplugCallback l).started = l.started
    ∧ (deregisterHotplugCallback l).m_usbEvents = l.m_usbEvents := by
  unfold deregisterHotplugCallback
  dsimp only
  split_ifs <;> exact ⟨rfl, rfl, rfl, rfl⟩

theorem deregister_callbacks_nil (l : DeviceListenerLibUsb) (h : OneCallback l) :
    (deregisterHotplugCallback l).usb.callbacks = [] := by
  obtain ⟨_, _, h3⟩ := h
  rw [deregister_usb]
  rcases h3 with h3 | ⟨hctx, _, cb, hcb, hh⟩
  · split_ifs <;> simp [Library.deregisterCallback, h3]
  · rw [if_pos hctx]
    simp [Library.deregisterCallback, hcb, hh]

theorem deregister_nextHandle (l : DeviceListenerLibUsb) :
    (deregisterHotplugCallback l).usb.nextHandle = l.usb.nextHandle := by
  rw [deregister_usb]
  split_ifs <;> rfl

theorem inv_deregister (l : DeviceListenerLibUsb) (h : OneCallback l) :
    OneCallback (deregisterHotplugCallback l) := by
  obtain ⟨e2, e3, _, _⟩ := deregister_fields l
  refine ⟨?_, ?_, Or.inl (deregister_callbacks_nil l h)⟩
  · rw [deregister_nextHandle]; exact h.1
  · rw [deregister_nextHandle, e2]; exact h.2.1

/-- The library and the handle member after `registerHotplugCallback` on an object
whose context is set or can be set. -/
theorem register_usb (initOk regOk arrived left : Bool) (vendorId productId : Int)
    (l : DeviceListenerLibUsb) (hi : l.m_ctx = true ∨ initOk = true) (h : OneCallback l) :
    ∃ calls,
      (registerHotplugCallback initOk regOk arrived left vendorId productId l).usb
        = Library.registerCallback
            { callbacks := [], nextHandle := l.usb.nextHandle, calls := calls }
            regOk (hotplugEvents arrived left) vendorId productId
      ∧ (registerHotplugCallback initOk regOk arrived left vendorId productId l).m_callbackRef
        = (if regOk then l.usb.nextHandle else 0)
      ∧ (registerHotplugCallback initOk regOk arrived left vendorId productId l).m_ctx = true
      ∧ (∀ old ∈ l.usb.callbacks,
          calls = l.usb.calls ++ [LibCall.deregisterCallback old.handle]) := by
  refine ⟨(if l.m_ctx then l.usb.calls else l.usb.calls ++ [LibCall.init true])
      ++ (if l.m_callbackRef ≠ 0 then [LibCall.deregisterCallback l.m_callbackRef] else []), ?_⟩
  obtain ⟨_, _, h3⟩ := h
  have hfilter : l.usb.callbacks.filter (fun cb => cb.handle != l.m_callbackRef) = [] := by
    rcases h3 with h3 | ⟨_, _, cb, hcb, hh⟩
    · simp [h3]
    · simp [hcb, hh]
  have hzero : l.m_callbackRef = 0 → l.usb.callbacks = [] := by
    intro hz
    rcases h3 with h3 | ⟨_, hne, _⟩
    · exact h3
    · exact absurd hz hne
  have hnoctx : l.m_ctx = false → l.usb.callbacks = [] := by
    intro hz
    rcases h3 with h3 | ⟨hc, _, _⟩
    · exact h3
    · rw [hz] at hc; cases hc
  cases hctx : l.m_ctx
  · have hinit : initOk = true := by
      rcases hi with hi | hi
      · rw [hctx] at hi; cases hi
      · exact hi
    have hcb := hnoctx hctx
    by_cases href : l.m_callbackRef = 0
    · cases regOk <;>
        simp [registerHotplugCallback, deregisterHotplugCallback, isRunning, hctx, hinit, href,
          hcb, Library.registerCallback, Library.deregisterCallback]
    · cases regOk <;>
        simp [registerHotplugCallback, deregister_usb, deregister_fields, hctx, hinit, href,
          hcb, Library.registerCallback, Library.deregisterCallback]
  · by_cases href : l.m_callbackRef = 0
    · have hcb := hzero href
      cases regOk <;>
        simp [registerHotplugCallback, hctx, href, hcb, Library.registerCallback]
    · refine ⟨?_, ?_, ?_, ?_⟩
      · cases regOk <;>
          simp [registerHotplugCallback, deregister_usb, deregister_fields, hctx, href,
            hfilter, Library.registerCallback, Library.deregisterCallback]
      · cases regOk <;>
          simp [registerHotplugCallback, deregister_usb, deregister_fields, hctx, href,
            Library.registerCallback, Library.deregisterCallback]
      · cases regOk <;>
          simp [registerHotplugCallback, deregister_usb, deregister_fields, hctx, href]
      · intro old hold
        rcases h3 with h3 | ⟨_, _, cb, hcb, hh⟩
        · rw [h3] at hold; simp at hold
        · rw [hcb] at hold
          have : old = cb := by simpa using hold
          subst this
          simp [href, hh]

theorem register_init_failed (regOk arrived left : Bool) (vendorId productId : Int)
    (l : DeviceListenerLibUsb) (hc : l.m_ctx = false) :
    registerHotplugCallback false regOk arrived left vendorId productId l
      = { l with usb := { l.usb with calls := l.usb.calls ++ [LibCall.init false] } } := by
  simp [registerHotplugCallback, hc]

theorem inv_register (initOk regOk arrived left : Bool) (vendorId productId : Int)
    (l : DeviceListenerLibUsb) (h : OneCallback l) :
    OneCallback (registerHotplugCallback initOk regOk arrived left vendorId productId l) := by
  by_cases hi : l.m_ctx = true ∨ initOk = true
  · obtain ⟨calls, e1, e2, e3, _⟩ :=
      register_usb initOk regOk arrived left vendorId productId l hi h
    have hpos := h.1
    unfold OneCallback
    rw [e1, e2, e3]
    cases regOk
    · refine ⟨hpos, ?_, Or.inl ?_⟩
      · simpa [Library.registerCallback] using hpos
      · simp [Library.registerCallback]
    · refine ⟨?_, ?_, Or.inr ⟨rfl, ?_, ?_⟩⟩
      · simp [Library.registerCallback]
      · simp [Library.registerCallback]
      · simpa using Nat.pos_iff_ne_zero.mp hpos
      · exact ⟨{ handle := l.usb.nextHandle, events := hotplugEvents arrived left,
                 vendorId := vendorId, productId := productId },
          by simp [Library.registerCallback], by simp⟩
  · have hc : l.m_ctx = false := by
      cases hm : l.m_ctx
      · rfl
      · exact absurd (Or.inl hm) hi
    have hio : initOk = false := by
      cases hm : initOk
      · rfl
      · exact absurd (Or.inr hm) hi
    subst hio
    rw [register_init_failed _ _ _ _ _ l hc]
    exact h

theorem inv_step (l : DeviceListenerLibUsb) (c : Call) (h : OneCallback l) : OneCallback (step l c) := by
  cases c with
  | register initOk regOk arrived left vendorId productId =>
    exact inv_register initOk regOk arrived left vendorId productId l h
  | deregister => exact inv_deregister l h

theorem inv_run (cs : List Call) (l : DeviceListenerLibUsb) (h : OneCallback l) : OneCallback (run cs l) := by
  induction cs generalizing l with
  | nil => exact h
  | cons c cs ih => exact ih (step l c) (inv_step l c h)

/-- C7, as stated, fails: when the library refuses the second registration, two
consecutive register calls (initialisation succeeding) leave no active subscription,
not exactly one. -/
theorem libusb_two_registers_second_refused :
    (run [Call.register true true true true (-1) (-1),
          Call.register true false true true (-1) (-1)] {}).usb.callbacks = []
    ∧ (run [Call.register true true true true (-1) (-1)] {}).usb.callbacks
        = [{ handle := 1, events := 3, vendorId := -1, productId := -1 }] := by
  decide

/-- C7, amended: after any sequence of register and deregister calls on a new
listener, whatever the library answers, at most one hotplug callback is registered
with the library; after a further deregister none is; after a further register
(initialisation succeeding) whose registration the library refuses none is; after a
further register whose registration succeeds exactly one is, the one just
registered, whose handle is in `m_callbackRef`; and a callback that was registered
before this call was deregistered by it before the new one was registered. -/
theorem libusb_at_most_one_callback (cs : List Call) :
    (run cs {}).usb.callbacks.length ≤ 1
    ∧ (deregisterHotplugCallback (run cs {})).usb.callbacks = []
    ∧ (∀ (arrived left : Bool) (vendorId productId : Int),
        (registerHotplugCallback true false arrived left vendorId productId
          (run cs {})).usb.callbacks = [])
    ∧ (∀ (arrived left : Bool) (vendorId productId : Int),
        (registerHotplugCallback true true arrived left vendorId productId
          (run cs {})).usb.callbacks
          = [{ handle := (registerHotplugCallback true true arrived left vendorId productId
                  (run cs {})).m_callbackRef
               events := hotplugEvents arrived left
               vendorId := vendorId
               productId := productId }]
        ∧ (registerHotplugCallback true true arrived left vendorId productId
              (run cs {})).m_callbackRef = (run cs {}).usb.nextHandle
        ∧ ∀ old ∈ (run cs {}).usb.callbacks,
            old.handle < (run cs {}).usb.nextHandle
            ∧ (registerHotplugCallback true true arrived left vendorId productId
                (run cs {})).usb.calls
              = (run cs {}).usb.calls
                ++ [LibCall.deregisterCallback old.handle,
                    LibCall.registerCallback
                      { handle := (run cs {}).usb.nextHandle
                        events := hotplugEvents arrived left
                        vendorId := vendorId
                        productId := productId } true]) := by
  have hinv : OneCallback (run cs {}) := inv_run cs {} inv_new
  generalize run cs {} = l at hinv
  refine ⟨?_, deregister_callbacks_nil l hinv, ?_, ?_⟩
  · rcases hinv.2.2 with h | ⟨_, _, cb, hcb, _⟩
    · simp [h]
    · simp [hcb]
  · intro arrived left vendorId productId
    obtain ⟨calls, e1, _, _, _⟩ :=
      register_usb true false arrived left vendorId productId l (Or.inr rfl) hinv
    rw [e1]
    simp [Library.registerCallback]
  · intro arrived left vendorId productId
    obtain ⟨calls, e1, e2, _, e4⟩ :=
      register_usb true true arrived left vendorId productId l (Or.inr rfl) hinv
    rw [e1, e2]
    refine ⟨by simp [Library.registerCallback], by simp, ?_⟩
    intro old hold
    rw [e4 old hold]
    refine ⟨?_, by simp [Library.registerCallback]⟩
    rcases hinv.2.2 with h | ⟨_, _, cb, hcb, hh⟩
    · rw [h] at hold; simp at hold
    · rw [hcb] at hold
      have : old = cb := by simpa using hold
      subst this
      rw [hh]
      exact hinv.2.1

/-! ### The operations that change the database -/

/-- C8, as stated, fails: without a current database `addEntry` and `updateEntry`
return without showing any message box, so no critical message is reported. -/
theorem addEntry_updateEntry_report_nothing :
    isDatabaseOpened Example.noDatabase = false
    ∧ (addEntry qtLib Example.noDatabase (qs "g") (qs "e") [] (qs "user") (qs "pw")
        Example.pageUrl Example.formUrl []).shown = []
    ∧ (updateEntry Example.noDatabase true [] (qs "e") (qs "user") (qs "pw")
        Example.pageUrl).shown = [] := by
  decide

/-- C8, amended: when `isDatabaseOpened()` is false, `removeSharedEncryptionKeys` and
`removeStoredPermissions` show one critical message box and return with the current
widget and its database as they were; `addEntry` and `updateEntry` do not look at
`isDatabaseOpened()`: when there is no current database they return the state as it
was, without any message box. -/
theorem mutations_without_open_database (lib : Lib) (s : Service) :
    (isDatabaseOpened s = false →
      (∃ s1, removeSharedEncryptionKeys s = some s1
        ∧ s1.currentDatabaseWidget = s.currentDatabaseWidget
        ∧ s1.shown = s.shown ++ [{ severity := Severity.critical, title := titleLocked }])
      ∧ ∀ wasCanceled, ∃ s1, removeStoredPermissions s wasCanceled = some s1
        ∧ s1.currentDatabaseWidget = s.currentDatabaseWidget
        ∧ s1.shown = s.shown ++ [{ severity := Severity.critical, title := titleLocked }])
    ∧ (s.currentDatabase = none →
      (∀ groupUuid entryUuid id login password url submitUrl realm,
        addEntry lib s groupUuid entryUuid id login password url submitUrl realm = s)
      ∧ ∀ answerYes id uuid login password url,
        updateEntry s answerYes id uuid login password url = s) := by
  constructor
  · intro h
    constructor
    · exact ⟨s.showMessage Severity.critical titleLocked,
        by simp [removeSharedEncryptionKeys, h], rfl, rfl⟩
    · intro wasCanceled
      exact ⟨s.showMessage Severity.critical titleLocked,
        by simp [removeStoredPermissions, h], rfl, rfl⟩
  · intro h
    unfold Service.currentDatabase at h
    constructor
    · intro groupUuid entryUuid id login password url submitUrl realm
      unfold addEntry findCreateAddEntryGroup
      cases hw : s.currentDatabaseWidget with
      | none => rfl
      | some w =>
        rw [hw] at h
        simp only at h
        simp only [h]
    · intro answerYes id uuid login password url
      unfold updateEntry
      cases hw : s.currentDatabaseWidget with
      | none => rfl
      | some w =>
        rw [hw] at h
        simp only at h
        simp only [h]

/-- The amended C8 at a locked database and at a service without database. -/
theorem mutations_without_open_database_witness :
    ((∃ s1, removeSharedEncryptionKeys (Example.lockedVault [Example.taggedEntry 0]) = some s1
        ∧ s1.currentDatabaseWidget = (Example.lockedVault [Example.taggedEntry 0]).currentDatabaseWidget
        ∧ s1.shown = (Example.lockedVault [Example.taggedEntry 0]).shown
            ++ [{ severity := Severity.critical, title := titleLocked }])
      ∧ ∀ wasCanceled, ∃ s1,
        removeStoredPermissions (Example.lockedVault [Example.taggedEntry 0]) wasCanceled = some s1
        ∧ s1.currentDatabaseWidget = (Example.lockedVault [Example.taggedEntry 0]).currentDatabaseWidget
        ∧ s1.shown = (Example.lockedVault [Example.taggedEntry 0]).shown
            ++ [{ severity := Severity.critical, title := titleLocked }])
    ∧ ((∀ groupUuid entryUuid id login password url submitUrl realm,
        addEntry qtLib Example.noDatabase groupUuid entryUuid id login password url submitUrl realm
          = Example.noDatabase)
      ∧ ∀ answerYes id uuid login password url,
        updateEntry Example.noDatabase answerYes id uuid login password url
          = Example.noDatabase) :=
  ⟨(mutations_without_open_database qtLib (Example.lockedVault [Example.taggedEntry 0])).1
      (by decide),
   (mutations_without_open_database qtLib Example.noDatabase).2 (by decide)⟩

/-! ### `addEntry` and the reserved group -/

theorem widget_of_currentDatabase (s : Service) (db : Database)
    (h : s.currentDatabase = some db) :
    ∃ w, s.currentDatabaseWidget = some w ∧ w.database = some db := by
  unfold Service.currentDatabase at h
  cases hw : s.currentDatabaseWidget with
  | none => rw [hw] at h; cases h
  | some w => rw [hw] at h; exact ⟨w, rfl, h⟩

theorem rootGroup_of_ne_nil (db : Database) (h : db.groups ≠ []) : db.rootGroup = some 0 := by
  unfold Database.rootGroup
  cases hg : db.groups with
  | nil => exact absurd hg h
  | cons a l => rfl

theorem rootGroup_eq_none (db : Database) (h : db.groups = []) : db.rootGroup = none := by
  unfold Database.rootGroup
  rw [h]
  rfl

theorem currentDatabase_appendEntry (s : Service) (db : Database) (e : Entry)
    (h : s.currentDatabase = some db) :
    (s.appendEntry e).currentDatabase = some { db with entries := db.entries ++ [e] } := by
  unfold Service.appendEntry
  rw [h]
  exact Service.currentDatabase_setDatabase s db _ h

theorem findCreateAddEntryGroup_eq (s : Service) (db : Database) (gu : Uuid)
    (hdb : s.currentDatabase = some db) (hroot : db.groups ≠ []) :
    findCreateAddEntryGroup s gu
      = match db.groupsRecursive.find? (fun g => (db.group g).name == KEEPASSHTTP_GROUP_NAME) with
        | some g => (db.resolveGroup (db.group g).uuid, s)
        | none =>
          (some db.groups.length,
            s.setDatabase
              { db with groups := db.groups ++ [newGroup gu KEEPASSHTTP_GROUP_NAME 0] }) := by
  obtain ⟨w, hw, hd⟩ := widget_of_currentDatabase s db hdb
  unfold findCreateAddEntryGroup
  simp only [hw, hd, rootGroup_of_ne_nil db hroot]

theorem reservedGroups_eq_nil_iff (s : Service) (db : Database)
    (hdb : s.currentDatabase = some db) :
    s.reservedGroups = []
      ↔ db.groupsRecursive.find? (fun g => (db.group g).name == KEEPASSHTTP_GROUP_NAME) = none := by
  unfold Service.reservedGroups
  rw [hdb]
  simp only [List.filter_eq_nil_iff, List.find?_eq_none]

theorem reservedGroups_of_groups_eq (s s1 : Service) (db db1 : Database)
    (h : s.currentDatabase = some db) (h1 : s1.currentDatabase = some db1)
    (hg : db1.groups = db.groups) : s1.reservedGroups = s.reservedGroups := by
  unfold Service.reservedGroups
  rw [h, h1]
  simp only [Database.groupsRecursive, Database.group, hg]

theorem group_append_lt (db : Database) (G : Group) (es : List Entry) (i : Nat)
    (hi : i < db.groups.length) :
    Database.group (db.grown G es) i
      = db.group i := by
  unfold Database.group Database.grown
  exact List.getD_append _ _ _ _ hi

theorem group_append_last (db : Database) (G : Group) (es : List Entry) :
    Database.group (db.grown G es)
      db.groups.length = G := by
  unfold Database.group Database.grown
  simp only
  rw [List.getD_append_right _ _ _ _ (Nat.le_refl _)]
  simp

theorem grown_groups_length (db : Database) (G : Group) (es : List Entry) :
    (db.grown G es).groups.length = db.groups.length + 1 := by
  simp [Database.grown]

theorem grown_groups_ne_nil (db : Database) (G : Group) (es : List Entry) :
    (db.grown G es).groups ≠ [] := by
  simp [Database.grown]

theorem find_range_last (n : Nat) (P : Nat → Bool) (h1 : ∀ i, i < n → P i = false)
    (h2 : P n = true) : (List.range (n + 1)).find? P = some n := by
  rw [List.range_succ, List.find?_append]
  have : (List.range n).find? P = none := by
    rw [List.find?_eq_none]
    intro x hx
    rw [h1 x (List.mem_range.mp hx)]
    simp
  rw [this]
  simp [List.find?, h2]

theorem filter_range_last (n : Nat) (P : Nat → Bool) (h1 : ∀ i, i < n → P i = false)
    (h2 : P n = true) : (List.range (n + 1)).filter P = [n] := by
  rw [List.range_succ, List.filter_append]
  have : (List.range n).filter P = [] := by
    rw [List.filter_eq_nil_iff]
    intro x hx
    rw [h1 x (List.mem_range.mp hx)]
    simp
  rw [this]
  simp [List.filter, h2]

theorem filter_range_last_two (n : Nat) (P : Nat → Bool) (h1 : ∀ i, i < n → P i = false)
    (h2 : P n = true) (h3 : P (n + 1) = true) : (List.range (n + 2)).filter P = [n, n + 1] := by
  rw [List.range_succ, List.filter_append, filter_range_last n P h1 h2]
  simp [List.filter, h3]

/-- What `addEntry` does when the database has no group with the reserved name. -/
theorem addEntry_creates_group (lib : Lib) (s : Service) (db : Database)
    (gu eu id login password url submitUrl realm : QString)
    (hdb : s.currentDatabase = some db) (hroot : db.groups ≠ [])
    (hnone : s.reservedGroups = []) :
    (addEntry lib s gu eu id login password url submitUrl realm).currentDatabase
      = some (db.grown (newGroup gu KEEPASSHTTP_GROUP_NAME 0)
          (db.entries ++ [newEntry lib db.groups.length eu login password url submitUrl realm])) := by
  have hf := (reservedGroups_eq_nil_iff s db hdb).mp hnone
  unfold addEntry
  rw [findCreateAddEntryGroup_eq s db gu hdb hroot, hf]
  simp only
  rw [currentDatabase_appendEntry _ _ _ (Service.currentDatabase_setDatabase s db _ hdb)]
  rfl

/-- What `addEntry` does to the groups when a group with the reserved name exists. -/
theorem addEntry_keeps_groups (lib : Lib) (s : Service) (db : Database)
    (gu eu id login password url submitUrl realm : QString)
    (hdb : s.currentDatabase = some db) (hsome : s.reservedGroups ≠ []) :
    ∃ es, (addEntry lib s gu eu id login password url submitUrl realm).currentDatabase
      = some { db with entries := es } := by
  by_cases hroot : db.groups = []
  · exfalso
    apply hsome
    unfold Service.reservedGroups
    rw [hdb]
    simp [Database.groupsRecursive, hroot]
  · have hf : db.groupsRecursive.find? (fun g => (db.group g).name == KEEPASSHTTP_GROUP_NAME)
        ≠ none := fun h => hsome ((reservedGroups_eq_nil_iff s db hdb).mpr h)
    unfold addEntry
    rw [findCreateAddEntryGroup_eq s db gu hdb hroot]
    cases hfind : db.groupsRecursive.find? (fun g => (db.group g).name == KEEPASSHTTP_GROUP_NAME) with
    | none => exact absurd hfind hf
    | some g =>
      simp only
      cases hres : db.resolveGroup (db.group g).uuid with
      | none => exact ⟨db.entries, by simpa using hdb⟩
      | some r =>
        simp only
        exact ⟨_, currentDatabase_appendEntry s db _ hdb⟩

theorem addEntry_no_database (lib : Lib) (s : Service)
    (gu eu id login password url submitUrl realm : QString) (h : s.currentDatabase = none) :
    addEntry lib s gu eu id login password url submitUrl realm = s := by
  unfold Service.currentDatabase at h
  unfold addEntry findCreateAddEntryGroup
  cases hw : s.currentDatabaseWidget with
  | none => rfl
  | some w =>
    rw [hw] at h
    simp only at h
    simp only [h]

theorem addEntry_no_root (lib : Lib) (s : Service) (db : Database)
    (gu eu id login password url submitUrl realm : QString)
    (hdb : s.currentDatabase = some db) (hroot : db.groups = []) :
    addEntry lib s gu eu id login password url submitUrl realm = s := by
  obtain ⟨w, hw, hd⟩ := widget_of_currentDatabase s db hdb
  unfold addEntry findCreateAddEntryGroup
  simp only [hw, hd, rootGroup_eq_none db hroot]

theorem attrSet_group (e : Entry) (k : QString) (v : AttrValue) :
    (e.attrSet k v).group = e.group := by
  unfold Entry.attrSet
  split_ifs <;> rfl

theorem newEntry_group (lib : Lib) (g : Nat) (eu login password url submitUrl realm : QString) :
    (newEntry lib g eu login password url submitUrl realm).group = g := by
  unfold newEntry EntryConfig.save
  rw [attrSet_group]

theorem group_mem_of_lt (db : Database) (i : Nat) (hi : i < db.groups.length) :
    db.group i ∈ db.groups := by
  unfold Database.group
  rw [List.getD_eq_getElem _ _ hi]
  exact List.getElem_mem hi

/-- The groups with the reserved name after `addEntry` created the group. -/
theorem reservedGroups_after_create (s1 : Service) (db : Database) (G : Group) (es : List Entry)
    (hname : G.name = KEEPASSHTTP_GROUP_NAME)
    (hold : ∀ i, i < db.groups.length → ((db.group i).name == KEEPASSHTTP_GROUP_NAME) = false)
    (h1 : s1.currentDatabase
      = some (db.grown G es)) :
    s1.reservedGroups = [db.groups.length] := by
  unfold Service.reservedGroups
  rw [h1]
  simp only [Database.groupsRecursive, grown_groups_length]
  apply filter_range_last
  · intro i hi
    rw [group_append_lt db G es i hi]
    exact hold i hi
  · rw [group_append_last db G es, hname]
    simp

theorem reservedGroups_nil_names (s : Service) (db : Database)
    (hdb : s.currentDatabase = some db) (hnone : s.reservedGroups = []) :
    ∀ i, i < db.groups.length → ((db.group i).name == KEEPASSHTTP_GROUP_NAME) = false := by
  intro i hi
  unfold Service.reservedGroups at hnone
  rw [hdb] at hnone
  simp only [List.filter_eq_nil_iff, Database.groupsRecursive, List.mem_range] at hnone
  have := hnone i hi
  simpa using this

/-- The reserved group is made at most once: the number of groups with the reserved
name after `addEntry` is at most one, or what it was. -/
theorem addEntry_reservedGroups (lib : Lib) (t : Service)
    (gu eu id login password url submitUrl realm : QString) :
    (addEntry lib t gu eu id login password url submitUrl realm).reservedGroups.length
        ≤ max 1 t.reservedGroups.length
    ∧ (t.reservedGroups ≠ [] →
        (addEntry lib t gu eu id login password url submitUrl realm).reservedGroups
          = t.reservedGroups) := by
  cases hdb : t.currentDatabase with
  | none =>
    rw [addEntry_no_database lib t gu eu id login password url submitUrl realm hdb]
    exact ⟨le_max_right _ _, fun _ => rfl⟩
  | some db =>
    by_cases hne : t.reservedGroups = []
    · refine ⟨?_, fun h => absurd hne h⟩
      by_cases hroot : db.groups = []
      · rw [addEntry_no_root lib t db gu eu id login password url submitUrl realm hdb hroot]
        exact le_max_right _ _
      · have h1 := addEntry_creates_group lib t db gu eu id login password url submitUrl realm
          hdb hroot hne
        rw [reservedGroups_after_create _ db _ _ rfl (reservedGroups_nil_names t db hdb hne) h1]
        simp
    · obtain ⟨es, h1⟩ := addEntry_keeps_groups lib t db gu eu id login password url submitUrl
        realm hdb hne
      have := reservedGroups_of_groups_eq t _ db _ hdb h1 rfl
      rw [this]
      exact ⟨le_max_right _ _, fun _ => rfl⟩

/-- What `addEntry` does when the reserved group is the last group and no other group
has its name or its uuid. -/
theorem addEntry_into_created_group (lib : Lib) (s1 : Service) (db : Database) (gu1 : Uuid)
    (es : List Entry) (gu eu id login password url submitUrl realm : QString)
    (hname : ∀ i, i < db.groups.length → ((db.group i).name == KEEPASSHTTP_GROUP_NAME) = false)
    (hfresh : ∀ g ∈ db.groups, g.uuid ≠ gu1)
    (h1 : s1.currentDatabase
      = some (db.grown (newGroup gu1 KEEPASSHTTP_GROUP_NAME 0) es)) :
    (addEntry lib s1 gu eu id login password url submitUrl realm).currentDatabase
      = some (db.grown (newGroup gu1 KEEPASSHTTP_GROUP_NAME 0)
          (es ++ [newEntry lib db.groups.length eu login password url submitUrl realm])) := by
  have hfind : (Database.groupsRecursive
      (db.grown (newGroup gu1 KEEPASSHTTP_GROUP_NAME 0) es)).find?
      (fun g => (Database.group (db.grown (newGroup gu1 KEEPASSHTTP_GROUP_NAME 0) es) g).name
        == KEEPASSHTTP_GROUP_NAME)
      = some db.groups.length := by
    simp only [Database.groupsRecursive, grown_groups_length]
    apply find_range_last
    · intro i hi
      rw [group_append_lt db _ es i hi]
      exact hname i hi
    · rw [group_append_last db _ es]
      simp [newGroup]
  have hres : Database.resolveGroup
      (db.grown (newGroup gu1 KEEPASSHTTP_GROUP_NAME 0) es) gu1 = some db.groups.length := by
    unfold Database.resolveGroup
    simp only [Database.groupsRecursive, grown_groups_length]
    apply find_range_last
    · intro i hi
      rw [group_append_lt db _ es i hi]
      have := hfresh _ (group_mem_of_lt db i hi)
      simpa using this
    · rw [group_append_last db _ es]
      simp [newGroup]
  unfold addEntry
  rw [findCreateAddEntryGroup_eq s1 _ gu h1 (grown_groups_ne_nil _ _ _), hfind]
  simp only
  rw [group_append_last db _ es]
  have hu : (newGroup gu1 KEEPASSHTTP_GROUP_NAME 0).uuid = gu1 := rfl
  rw [hu, hres]
  simp only
  rw [currentDatabase_appendEntry s1 _ _ h1]
  rfl

/-- C9: on a database with a root group and no group named `KeePassHttp Passwords`,
whose entries all belong to groups of the database, two `addEntry` calls in a row
(the uuid drawn for the new group being fresh) leave exactly one group with the
reserved name, a child of the root, holding exactly the two new entries; and on every
state `addEntry` leaves the groups with the reserved name as they were when there was
one, so their number is at most one or what it was. -/
theorem addEntry_twice_one_reserved_group (lib : Lib) (s : Service) (db : Database)
    (gu1 eu1 id1 login1 password1 url1 submitUrl1 realm1 : QString)
    (gu2 eu2 id2 login2 password2 url2 submitUrl2 realm2 : QString)
    (hdb : s.currentDatabase = some db) (hroot : db.groups ≠ [])
    (hnone : s.reservedGroups = [])
    (hfresh : ∀ g ∈ db.groups, g.uuid ≠ gu1)
    (hwf : ∀ e ∈ db.entries, e.group < db.groups.length) :
    (∃ db2,
      (addEntry lib (addEntry lib s gu1 eu1 id1 login1 password1 url1 submitUrl1 realm1)
          gu2 eu2 id2 login2 password2 url2 submitUrl2 realm2).currentDatabase = some db2
      ∧ db2.groups = db.groups ++ [newGroup gu1 KEEPASSHTTP_GROUP_NAME 0]
      ∧ db2.entries = db.entries
          ++ [newEntry lib db.groups.length eu1 login1 password1 url1 submitUrl1 realm1,
              newEntry lib db.groups.length eu2 login2 password2 url2 submitUrl2 realm2]
      ∧ (addEntry lib (addEntry lib s gu1 eu1 id1 login1 password1 url1 submitUrl1 realm1)
          gu2 eu2 id2 login2 password2 url2 submitUrl2 realm2).reservedGroups
          = [db.groups.length]
      ∧ (db2.group db.groups.length).parent = db2.rootGroup
      ∧ db2.entriesOf db.groups.length = [db.entries.length, db.entries.length + 1])
    ∧ ∀ (t : Service) (gu eu id login password url submitUrl realm : QString),
        (addEntry lib t gu eu id login password url submitUrl realm).reservedGroups.length
            ≤ max 1 t.reservedGroups.length
        ∧ (t.reservedGroups ≠ [] →
            (addEntry lib t gu eu id login password url submitUrl realm).reservedGroups
              = t.reservedGroups) := by
  refine ⟨?_, fun t gu eu id login password url submitUrl realm =>
    addEntry_reservedGroups lib t gu eu id login password url submitUrl realm⟩
  have hnames := reservedGroups_nil_names s db hdb hnone
  have h1 := addEntry_creates_group lib s db gu1 eu1 id1 login1 password1 url1 submitUrl1
    realm1 hdb hroot hnone
  have h2 := addEntry_into_created_group lib _ db gu1 _ gu2 eu2 id2 login2 password2 url2
    submitUrl2 realm2 hnames hfresh h1
  refine ⟨_, h2, rfl, by simp [Database.grown], ?_, ?_, ?_⟩
  · exact reservedGroups_after_create _ db _ _ rfl hnames h2
  · rw [group_append_last db _ _, rootGroup_of_ne_nil _ (grown_groups_ne_nil _ _ _)]
    rfl
  · unfold Database.entriesOf
    have hlen : (db.grown (newGroup gu1 KEEPASSHTTP_GROUP_NAME 0)
        (db.entries
          ++ [newEntry lib db.groups.length eu1 login1 password1 url1 submitUrl1 realm1]
          ++ [newEntry lib db.groups.length eu2 login2 password2 url2 submitUrl2 realm2])).entries.length
        = db.entries.length + 2 := by
      simp [Database.grown]
    rw [hlen]
    apply filter_range_last_two
    · intro i hi
      have hmem : Database.entry
          (db.grown (newGroup gu1 KEEPASSHTTP_GROUP_NAME 0)
            (db.entries
              ++ [newEntry lib db.groups.length eu1 login1 password1 url1 submitUrl1 realm1]
              ++ [newEntry lib db.groups.length eu2 login2 password2 url2 submitUrl2 realm2])) i
          ∈ db.entries := by
        unfold Database.entry Database.grown
        simp only [List.append_assoc]
        rw [List.getD_append _ _ _ _ hi, List.getD_eq_getElem _ _ hi]
        exact List.getElem_mem hi
      have := hwf _ hmem
      simp only [beq_eq_false_iff_ne, ne_eq]
      omega
    · unfold Database.entry Database.grown
      simp only [List.append_assoc]
      rw [List.getD_append_right _ _ _ _ (Nat.le_refl _)]
      simp [newEntry_group]
    · unfold Database.entry Database.grown
      simp only [List.append_assoc]
      rw [List.getD_append_right _ _ _ _ (Nat.le_succ _)]
      simp [newEntry_group]

/-- C9 on the open vault that holds one entry in its root group. -/
theorem addEntry_twice_one_reserved_group_witness :
    (addEntry qtLib (addEntry qtLib (Example.openVault [Example.unknownEntry])
        (qs "g1") (qs "e1") [] (qs "uma") (qs "pw1") Example.pageUrl Example.formUrl [])
        (qs "g2") (qs "e2") [] (qs "uma") (qs "pw2") (qs "https://other.org/") [] []).reservedGroups
      = [1]
    ∧ ∃ db2,
      (addEntry qtLib (addEntry qtLib (Example.openVault [Example.unknownEntry])
        (qs "g1") (qs "e1") [] (qs "uma") (qs "pw1") Example.pageUrl Example.formUrl [])
        (qs "g2") (qs "e2") [] (qs "uma") (qs "pw2") (qs "https://other.org/") [] []).currentDatabase
        = some db2
      ∧ db2.entriesOf 1 = [1, 2] := by
  obtain ⟨db2, h1, _, _, h4, _, h6⟩ :=
    (addEntry_twice_one_reserved_group qtLib (Example.openVault [Example.unknownEntry])
      (Example.rootOnly [Example.unknownEntry])
      (qs "g1") (qs "e1") [] (qs "uma") (qs "pw1") Example.pageUrl Example.formUrl []
      (qs "g2") (qs "e2") [] (qs "uma") (qs "pw2") (qs "https://other.org/") [] []
      rfl (by decide) (by decide) (by decide) (by decide)).1
  exact ⟨h4, db2, h1, h6⟩

/-! ### `removeStoredPermissions` -/

theorem entriesOf_nodup (db : Database) (g : Nat) : (db.entriesOf g).Nodup := by
  unfold Database.entriesOf
  exact (List.nodup_range _).filter _

theorem entriesRecursive_nodup (db : Database) : db.entriesRecursive.Nodup := by
  unfold Database.entriesRecursive Database.groupsRecursive
  rw [List.nodup_flatMap]
  refine ⟨fun g _ => entriesOf_nodup db g, ?_⟩
  refine List.Pairwise.imp_of_mem ?_ (List.nodup_range db.groups.length)
  intro a b _ _ hab
  simp only [Function.onFun]
  rw [List.disjoint_left]
  intro p hpa hpb
  unfold Database.entriesOf at hpa hpb
  have h1 := (List.mem_filter.mp hpa).2
  have h2 := (List.mem_filter.mp hpb).2
  simp only [beq_iff_eq] at h1 h2
  exact hab (h1.symm.trans h2)

theorem setDatabase_setDatabase (s : Service) (d1 d2 : Database) :
    (s.setDatabase d1).setDatabase d2 = s.setDatabase d2 := by
  unfold Service.setDatabase
  cases hw : s.currentDatabaseWidget with
  | none => simp only [hw]
  | some w => rfl

theorem modifyEntry_eq_setDatabase (s : Service) (db : Database) (p : Nat) (f : Entry → Entry)
    (h : s.currentDatabase = some db) :
    s.modifyEntry p f = s.setDatabase (db.modifyEntry p f) := by
  unfold Service.modifyEntry
  rw [h]

theorem setDatabase_self (s : Service) (db : Database) (h : s.currentDatabase = some db) :
    s.setDatabase db = s := by
  obtain ⟨w, hw, hd⟩ := widget_of_currentDatabase s db h
  unfold Service.setDatabase
  rw [hw]
  simp only
  cases s with
  | mk cw sh =>
    simp only at hw
    subst hw
    cases w with
    | mk m d =>
      simp only at hd
      subst hd
      rfl

theorem entry_of_currentDatabase (s : Service) (db : Database) (p : Nat)
    (h : s.currentDatabase = some db) : s.entry p = db.entry p := by
  unfold Service.entry
  rw [h]

theorem attrRemove_of_not_contains (e : Entry) (k : QString) (h : e.attrContains k = false) :
    e.attrRemove k = e := by
  unfold Entry.attrContains at h
  unfold Entry.attrRemove
  have : e.attributes.filter (fun kv => kv.1 != k) = e.attributes := by
    rw [List.filter_eq_self]
    intro a ha
    have := (List.any_eq_false.mp h) a ha
    simpa using this
  rw [this]

/-- The loop of `removeStoredPermissions` when the cancel button is pressed after `k`
entries: the first `k` entries of the list lose the attribute, nothing else changes. -/
theorem removePermissionsLoop_spec (wasCanceled : Nat → Bool) (ps : List Nat) :
    ∀ (s : Service) (db : Database) (counter value k : Nat),
      s.currentDatabase = some db → ps.Nodup → (∀ p ∈ ps, p < db.entries.length) →
      k ≤ ps.length → (∀ i, i < k → wasCanceled (value + i) = false) →
      (k < ps.length → wasCanceled (value + k) = true) →
      ∃ es : List Entry,
        (removePermissionsLoop wasCanceled ps s counter value).1
            = s.setDatabase { db with entries := es }
        ∧ es.length = db.entries.length
        ∧ (∀ p ∈ ps.take k, es.getD p {} = (db.entry p).attrRemove KEEPASSHTTP_NAME)
        ∧ (∀ p, p ∉ ps.take k → es.getD p {} = db.entry p)
        ∧ (removePermissionsLoop wasCanceled ps s counter value).2.2 = decide (k < ps.length) := by
  induction ps with
  | nil =>
    intro s db counter value k hdb _ _ hk _ _
    have hk0 : k = 0 := by simpa using hk
    subst hk0
    refine ⟨db.entries, ?_, rfl, ?_, ?_, ?_⟩
    · simp only [removePermissionsLoop]
      exact (setDatabase_self s db hdb).symm
    · intro p hp
      simp at hp
    · intro p _
      rfl
    · simp [removePermissionsLoop]
  | cons q rest ih =>
    intro s db counter value k hdb hnd hvalid hk hfalse htrue
    have hqrest : q ∉ rest := (List.nodup_cons.mp hnd).1
    have hndrest : rest.Nodup := (List.nodup_cons.mp hnd).2
    cases k with
    | zero =>
      have hc : wasCanceled value = true := by
        simpa using htrue (by simp)
      refine ⟨db.entries, ?_, rfl, ?_, ?_, ?_⟩
      · simp only [removePermissionsLoop, hc, if_true]
        exact (setDatabase_self s db hdb).symm
      · intro p hp
        simp at hp
      · intro p _
        rfl
      · simp [removePermissionsLoop, hc]
    | succ k1 =>
      have hc : wasCanceled value = false := by
        simpa using hfalse 0 (Nat.succ_pos _)
      have hk1 : k1 ≤ rest.length := by
        simpa using hk
      have hfalse1 : ∀ i, i < k1 → wasCanceled (value + 1 + i) = false := by
        intro i hi
        have := hfalse (i + 1) (by omega)
        rwa [show value + (i + 1) = value + 1 + i by omega] at this
      have htrue1 : k1 < rest.length → wasCanceled (value + 1 + k1) = true := by
        intro hlt
        have := htrue (by simpa using hlt)
        rwa [show value + (k1 + 1) = value + 1 + k1 by omega] at this
      have hq : q < db.entries.length := hvalid q (List.mem_cons_self _ _)
      simp only [removePermissionsLoop, hc, Bool.false_eq_true, if_false]
      by_cases hcont : (s.entry q).attrContains KEEPASSHTTP_NAME = true
      · simp only [hcont, if_true]
        rw [modifyEntry_eq_setDatabase s db q _ hdb]
        have hdb1 : (s.setDatabase (db.modifyEntry q (fun e => e.attrRemove KEEPASSHTTP_NAME))).currentDatabase
            = some (db.modifyEntry q (fun e => e.attrRemove KEEPASSHTTP_NAME)) :=
          Service.currentDatabase_setDatabase s db _ hdb
        obtain ⟨es, e1, e2, e3, e4, e5⟩ := ih _ _ ((counter + 1) % 4294967296) (value + 1) k1 hdb1
          hndrest
          (fun p hp => by
            simp only [Database.modifyEntry, List.length_set]
            exact hvalid p (List.mem_cons_of_mem _ hp))
          hk1 hfalse1 htrue1
        refine ⟨es, ?_, ?_, ?_, ?_, ?_⟩
        · rw [e1, setDatabase_setDatabase]
          rfl
        · rw [e2]
          simp [Database.modifyEntry]
        · intro p hp
          rw [List.take_succ_cons] at hp
          rcases List.mem_cons.mp hp with hpq | hpr
          · subst hpq
            have hnot : p ∉ rest.take k1 := fun h => hqrest (List.mem_of_mem_take h)
            rw [e4 p hnot, db_entry_modifyEntry]
            simp [hq]
          · have hpq : p ≠ q := fun h => hqrest (h ▸ List.mem_of_mem_take hpr)
            rw [e3 p hpr, db_entry_modifyEntry]
            simp [hpq]
        · intro p hp
          rw [List.take_succ_cons] at hp
          have hpq : p ≠ q := fun h => hp (h ▸ List.mem_cons_self _ _)
          have hpr : p ∉ rest.take k1 := fun h => hp (List.mem_cons_of_mem _ h)
          rw [e4 p hpr, db_entry_modifyEntry]
          simp [hpq]
        · rw [e5]
          simp
      · have hcont1 : (s.entry q).attrContains KEEPASSHTTP_NAME = false := by
          simpa using hcont
        simp only [hcont1, Bool.false_eq_true, if_false]
        obtain ⟨es, e1, e2, e3, e4, e5⟩ := ih s db counter (value + 1) k1 hdb hndrest
          (fun p hp => hvalid p (List.mem_cons_of_mem _ hp)) hk1 hfalse1 htrue1
        refine ⟨es, e1, e2, ?_, ?_, ?_⟩
        · intro p hp
          rw [List.take_succ_cons] at hp
          rcases List.mem_cons.mp hp with hpq | hpr
          · subst hpq
            have hnot : p ∉ rest.take k1 := fun h => hqrest (List.mem_of_mem_take h)
            rw [e4 p hnot]
            rw [entry_of_currentDatabase s db p hdb] at hcont1
            exact (attrRemove_of_not_contains _ _ hcont1).symm
          · exact e3 p hpr
        · intro p hp
          rw [List.take_succ_cons] at hp
          exact e4 p (fun h => hp (List.mem_cons_of_mem _ h))
        · rw [e5]
          simp

theorem removeStoredPermissions_eq (s : Service) (db : Database) (wasCanceled : Nat → Bool)
    (hopen : isDatabaseOpened s = true) (hdb : s.currentDatabase = some db)
    (hroot : db.groups ≠ []) :
    ∃ s1, removeStoredPermissions s wasCanceled = some s1
      ∧ s1.currentDatabaseWidget
          = (removePermissionsLoop wasCanceled db.entriesRecursive s 0 0).1.currentDatabaseWidget := by
  obtain ⟨w, hw, hd⟩ := widget_of_currentDatabase s db hdb
  unfold removeStoredPermissions
  simp only [hopen, Bool.not_true, Bool.false_eq_true, if_false, hw, hd,
    rootGroup_of_ne_nil db hroot]
  rcases hl : removePermissionsLoop wasCanceled db.entriesRecursive s 0 0 with ⟨s1, counter, flag⟩
  cases flag
  · simp only
    split_ifs
    · exact ⟨_, rfl, rfl⟩
    · exact ⟨_, rfl, rfl⟩
  · exact ⟨_, rfl, rfl⟩

theorem currentDatabase_congr (s s1 : Service)
    (h : s1.currentDatabaseWidget = s.currentDatabaseWidget) :
    s1.currentDatabase = s.currentDatabase := by
  unfold Service.currentDatabase
  rw [h]

theorem attrContains_attrRemove (e : Entry) (k : QString) :
    (e.attrRemove k).attrContains k = false := by
  unfold Entry.attrRemove Entry.attrContains
  rw [List.any_eq_false]
  intro a ha
  have := (List.mem_filter.mp ha).2
  simpa using this

theorem mem_drop_not_mem_take {ps : List Nat} (hnd : ps.Nodup) (k p : Nat)
    (h : p ∈ ps.drop k) : p ∉ ps.take k := by
  have hnd1 : (ps.take k ++ ps.drop k).Nodup := by
    rw [List.take_append_drop]
    exact hnd
  have hdis := (List.nodup_append.mp hnd1).2.2
  exact fun ht => hdis ht h

/-- C10: on an open database with a root group, when the progress dialog first reports
cancellation after `k` entries of the recursive walk have been processed (never, for
`k` the number of entries), `removeStoredPermissions` returns, the first `k` entries of
the walk have lost the permission attribute, every other entry is as it was, and no
entry differs from before in anything but the permission attribute. The entries of
the walk that still have the attribute are those after the first `k` that had it: of
`n` entries that all had it, `n - k` retain it. -/
theorem removeStoredPermissions_cancel_after (s : Service) (db : Database)
    (wasCanceled : Nat → Bool) (k : Nat)
    (hopen : isDatabaseOpened s = true) (hdb : s.currentDatabase = some db)
    (hroot : db.groups ≠ []) (hk : k ≤ db.entriesRecursive.length)
    (hfalse : ∀ i, i < k → wasCanceled i = false)
    (htrue : k < db.entriesRecursive.length → wasCanceled k = true) :
    ∃ s1 db1, removeStoredPermissions s wasCanceled = some s1
      ∧ s1.currentDatabase = some db1
      ∧ db1.groups = db.groups
      ∧ db1.entries.length = db.entries.length
      ∧ (∀ p ∈ db.entriesRecursive.take k,
          db1.entry p = (db.entry p).attrRemove KEEPASSHTTP_NAME
          ∧ (db1.entry p).attrContains KEEPASSHTTP_NAME = false)
      ∧ (∀ p ∈ db.entriesRecursive.drop k, db1.entry p = db.entry p)
      ∧ (∀ p, p ∉ db.entriesRecursive → db1.entry p = db.entry p)
      ∧ (∀ p, { db1.entry p with attributes := [] } = { db.entry p with attributes := [] }
          ∧ (db1.entry p).attributes.filter (fun kv => kv.1 != KEEPASSHTTP_NAME)
              = (db.entry p).attributes.filter (fun kv => kv.1 != KEEPASSHTTP_NAME))
      ∧ db.entriesRecursive.filter (fun p => (db1.entry p).attrContains KEEPASSHTTP_NAME)
          = (db.entriesRecursive.drop k).filter
              (fun p => (db.entry p).attrContains KEEPASSHTTP_NAME)
      ∧ ((∀ p ∈ db.entriesRecursive, (db.entry p).attrContains KEEPASSHTTP_NAME = true) →
          (db.entriesRecursive.filter
              (fun p => (db1.entry p).attrContains KEEPASSHTTP_NAME)).length
            = db.entriesRecursive.length - k) := by
  obtain ⟨s1, hs1, hw1⟩ := removeStoredPermissions_eq s db wasCanceled hopen hdb hroot
  obtain ⟨es, e1, e2, e3, e4, _⟩ := removePermissionsLoop_spec wasCanceled db.entriesRecursive
    s db 0 0 k hdb (entriesRecursive_nodup db)
    (fun p hp => Database.mem_entriesRecursive hp) hk
    (fun i hi => by simpa using hfalse i hi) (fun h => by simpa using htrue h)
  have hcur : s1.currentDatabase = some { db with entries := es } := by
    rw [currentDatabase_congr _ _ hw1, e1]
    exact Service.currentDatabase_setDatabase s db _ hdb
  have hentry : ∀ p, Database.entry { db with entries := es } p = es.getD p {} := fun _ => rfl
  have htake : ∀ p ∈ db.entriesRecursive.take k,
      Database.entry { db with entries := es } p = (db.entry p).attrRemove KEEPASSHTTP_NAME :=
    fun p hp => by rw [hentry, e3 p hp]
  have hrest : ∀ p, p ∉ db.entriesRecursive.take k →
      Database.entry { db with entries := es } p = db.entry p :=
    fun p hp => by rw [hentry, e4 p hp]
  have hfilter : db.entriesRecursive.filter
      (fun p => (Database.entry { db with entries := es } p).attrContains KEEPASSHTTP_NAME)
      = (db.entriesRecursive.drop k).filter
          (fun p => (db.entry p).attrContains KEEPASSHTTP_NAME) := by
    conv_lhs => rw [← List.take_append_drop k db.entriesRecursive, List.filter_append]
    have h1 : (db.entriesRecursive.take k).filter
        (fun p => (Database.entry { db with entries := es } p).attrContains KEEPASSHTTP_NAME)
        = [] := by
      rw [List.filter_eq_nil_iff]
      intro p hp
      rw [htake p hp, attrContains_attrRemove]
      simp
    have h2 : (db.entriesRecursive.drop k).filter
        (fun p => (Database.entry { db with entries := es } p).attrContains KEEPASSHTTP_NAME)
        = (db.entriesRecursive.drop k).filter
            (fun p => (db.entry p).attrContains KEEPASSHTTP_NAME) := by
      apply List.filter_congr
      intro p hp
      rw [hrest p (mem_drop_not_mem_take (entriesRecursive_nodup db) k p hp)]
    rw [h1, h2, List.nil_append]
  refine ⟨s1, _, hs1, hcur, rfl, e2, ?_, ?_, ?_, ?_, hfilter, ?_⟩
  · intro p hp
    rw [htake p hp]
    exact ⟨rfl, attrContains_attrRemove _ _⟩
  · intro p hp
    exact hrest p (mem_drop_not_mem_take (entriesRecursive_nodup db) k p hp)
  · intro p hp
    exact hrest p (fun h => hp (List.mem_of_mem_take h))
  · intro p
    by_cases hp : p ∈ db.entriesRecursive.take k
    · rw [htake p hp]
      refine ⟨rfl, ?_⟩
      simp [Entry.attrRemove]
    · rw [hrest p hp]
      exact ⟨rfl, rfl⟩
  · intro hall
    rw [hfilter]
    have : (db.entriesRecursive.drop k).filter
        (fun p => (db.entry p).attrContains KEEPASSHTTP_NAME) = db.entriesRecursive.drop k := by
      rw [List.filter_eq_self]
      intro p hp
      exact hall p (List.mem_of_mem_drop hp)
    rw [this, List.length_drop]

theorem entriesRecursive_rootOnly (es : List Entry) (h : ∀ e ∈ es, e.group = 0) :
    (Example.rootOnly es).entriesRecursive = List.range es.length := by
  unfold Database.entriesRecursive Database.groupsRecursive Example.rootOnly
  simp only [List.length_singleton]
  have hr : List.range 1 = [0] := rfl
  rw [hr]
  simp only [List.flatMap_cons, List.flatMap_nil, List.append_nil]
  unfold Database.entriesOf
  simp only
  rw [List.filter_eq_self]
  intro p hp
  have hlt : p < es.length := List.mem_range.mp hp
  have : Database.entry { groups := [{ name := qs "Root" }], entries := es } p ∈ es := by
    unfold Database.entry
    simp only
    rw [List.getD_eq_getElem _ _ hlt]
    exact List.getElem_mem hlt
  simp [h _ this]

theorem entry_rootOnly_replicate (n p : Nat) (e : Entry) (hp : p < n) :
    (Example.rootOnly (List.replicate n e)).entry p = e := by
  unfold Database.entry Example.rootOnly
  simp only
  rw [List.getD_eq_getElem _ _ (by simpa using hp)]
  simp

/-- C10 at scenario S6: a vault of 1000 entries that all have the attribute, cancelled
when the progress stands at 250: 750 entries retain the attribute and 250 have lost
it. -/
theorem removeStoredPermissions_cancel_after_witness :
    ∃ s1 db1,
      removeStoredPermissions (Example.openVault (List.replicate 1000 (Example.taggedEntry 0)))
        (Example.cancelAt 250) = some s1
      ∧ s1.currentDatabase = some db1
      ∧ ((List.range 1000).filter
          (fun p => (db1.entry p).attrContains KEEPASSHTTP_NAME)).length = 750
      ∧ ((List.range 1000).filter
          (fun p => !(db1.entry p).attrContains KEEPASSHTTP_NAME)).length = 250 := by
  have hwalk : (Example.rootOnly (List.replicate 1000 (Example.taggedEntry 0))).entriesRecursive
      = List.range 1000 := by
    rw [entriesRecursive_rootOnly _ (fun e he => by rw [List.eq_of_mem_replicate he]; rfl),
      List.length_replicate]
  obtain ⟨s1, db1, h1, h2, _, _, _, _, _, _, _, h10⟩ :=
    removeStoredPermissions_cancel_after
      (Example.openVault (List.replicate 1000 (Example.taggedEntry 0)))
      (Example.rootOnly (List.replicate 1000 (Example.taggedEntry 0)))
      (Example.cancelAt 250) 250 rfl rfl (List.cons_ne_nil _ _)
      (by rw [hwalk, List.length_range]; omega)
      (fun i hi => by simp only [Example.cancelAt, decide_eq_false_iff_not]; omega)
      (fun _ => by simp [Example.cancelAt])
  have hall : ∀ p ∈ (Example.rootOnly (List.replicate 1000 (Example.taggedEntry 0))).entriesRecursive,
      ((Example.rootOnly (List.replicate 1000 (Example.taggedEntry 0))).entry p).attrContains
        KEEPASSHTTP_NAME = true := by
    intro p hp
    rw [hwalk] at hp
    rw [entry_rootOnly_replicate 1000 p _ (List.mem_range.mp hp)]
    decide
  have h750 := h10 hall
  rw [hwalk] at h750
  simp only [List.length_range] at h750
  refine ⟨s1, db1, h1, h2, h750, ?_⟩
  have hsum := List.length_eq_length_filter_add (l := List.range 1000)
    (fun p => (db1.entry p).attrContains KEEPASSHTTP_NAME)
  rw [h750, List.length_range] at hsum
  omega

/-! ### The consent flow of `findMatchingEntries` -/

/-- The function `findMatchingEntries`, with its first loop summed up. -/
theorem findMatchingEntries_eq (lib : Lib) (s : Service) (dlg : DialogAnswer)
    (id url submitUrl realm : QString) :
    findMatchingEntries lib s dlg id url submitUrl realm
      = if (candidatesWith lib s url submitUrl realm Access.Unknown).isEmpty then
          { result := (candidatesWith lib s url submitUrl realm Access.Allowed).map
              (fun p => prepareEntry (s.entry p))
            service := s
            asked := none }
        else
          { result :=
              if dlg.res = QDialog.Accepted then
                (candidatesWith lib s url submitUrl realm Access.Allowed).map
                    (fun p => prepareEntry (s.entry p))
                  ++ (searchEntries lib s url).map (fun p => prepareEntry
                      ((if dlg.remember then
                          rememberAll dlg.res (lib.host url) (lib.host submitUrl) realm
                            (searchEntries lib s url) s
                        else s).entry p))
              else
                (candidatesWith lib s url submitUrl realm Access.Allowed).map
                  (fun p => prepareEntry (s.entry p))
            service :=
              if dlg.remember then
                rememberAll dlg.res (lib.host url) (lib.host submitUrl) realm
                  (searchEntries lib s url) s
              else s
            asked := some (candidatesWith lib s url submitUrl realm Access.Unknown) } := by
  unfold findMatchingEntries candidatesWith
  simp only [Service.checkEntries_eq, List.nil_append]
  cases hu : ((searchEntries lib s url).filter (fun p =>
      decide (checkAccess (s.entry p) (lib.host url) (lib.host submitUrl) realm
        = Access.Unknown))).isEmpty
  · simp
  · simp

theorem candidatesWith_unknown_ne_nil (lib : Lib) (s : Service) (url submitUrl realm : QString)
    (h : ∃ p ∈ searchEntries lib s url,
      checkAccess (s.entry p) (lib.host url) (lib.host submitUrl) realm = Access.Unknown) :
    (candidatesWith lib s url submitUrl realm Access.Unknown).isEmpty = false := by
  obtain ⟨p, hp, hu⟩ := h
  have hm : p ∈ candidatesWith lib s url submitUrl realm Access.Unknown :=
    List.mem_filter.mpr ⟨hp, by simpa using hu⟩
  cases hl : candidatesWith lib s url submitUrl realm Access.Unknown with
  | nil => rw [hl] at hm; simp at hm
  | cons a l => rfl

theorem EntryConfig.mem_allowed_allow (c : EntryConfig) (h : QString) :
    h ∈ (c.allow h).allowedHosts := by
  unfold EntryConfig.allow
  by_cases hm : h ∈ c.allowedHosts <;> simp [hm]

theorem EntryConfig.mem_allowed_allow_of_mem (c : EntryConfig) (h g : QString)
    (hm : g ∈ c.allowedHosts) : g ∈ (c.allow h).allowedHosts := by
  unfold EntryConfig.allow
  by_cases hh : h ∈ c.allowedHosts <;> simp [hh, hm]

theorem EntryConfig.not_mem_allowed_deny (c : EntryConfig) (h : QString) :
    h ∉ (c.deny h).allowedHosts := by
  unfold EntryConfig.deny
  simp

theorem EntryConfig.not_mem_allowed_deny_of_not_mem (c : EntryConfig) (h g : QString)
    (hm : g ∉ c.allowedHosts) : g ∉ (c.deny h).allowedHosts := by
  unfold EntryConfig.deny
  simp only [List.mem_filter, not_and]
  intro hg
  exact absurd hg hm

/-- The stored permission after the answer is remembered on one entry. -/
theorem rememberEntry_load (res : Int) (H S R : QString) (e : Entry) :
    ∃ c, EntryConfig.load (rememberEntry res H S R e) = some c
      ∧ (res = QDialog.Accepted → H ∈ c.allowedHosts ∧ (S ≠ [] → S ∈ c.allowedHosts))
      ∧ (res = QDialog.Rejected →
          H ∈ c.deniedHosts ∧ (S ≠ [] → S ∈ c.deniedHosts) ∧ H ∉ c.allowedHosts)
      ∧ (R ≠ [] → c.realm = R) := by
  unfold rememberEntry
  simp only [EntryConfig.load_save]
  refine ⟨_, rfl, ?_, ?_, ?_⟩
  · intro hres
    subst hres
    simp only [if_true]
    constructor
    · split_ifs <;>
        simp [EntryConfig.setRealm, EntryConfig.mem_allowed_allow,
          EntryConfig.mem_allowed_allow_of_mem]
    · intro hS
      have hSe : S.isEmpty = false := by cases S <;> simp_all
      by_cases hHS : H = S
      · subst hHS
        simp [EntryConfig.setRealm, EntryConfig.mem_allowed_allow]
        split_ifs <;> simp [EntryConfig.mem_allowed_allow]
      · have : (!S.isEmpty && H != S) = true := by simp [hSe, hHS]
        simp only [this, if_true]
        split_ifs <;> simp [EntryConfig.setRealm, EntryConfig.mem_allowed_allow]
  · intro hres
    subst hres
    have hne : ¬ (QDialog.Rejected = QDialog.Accepted) := by decide
    simp only [if_neg hne, if_true]
    refine ⟨?_, ?_, ?_⟩
    · split_ifs <;>
        simp [EntryConfig.setRealm, EntryConfig.mem_denied_deny,
          EntryConfig.mem_denied_deny_of_mem]
    · intro hS
      have hSe : S.isEmpty = false := by cases S <;> simp_all
      by_cases hHS : H = S
      · subst hHS
        simp [EntryConfig.setRealm, EntryConfig.mem_denied_deny]
        split_ifs <;> simp [EntryConfig.mem_denied_deny]
      · have : (!S.isEmpty && H != S) = true := by simp [hSe, hHS]
        simp only [this, if_true]
        split_ifs <;> simp [EntryConfig.setRealm, EntryConfig.mem_denied_deny]
    · split_ifs <;>
        simp [EntryConfig.setRealm, EntryConfig.not_mem_allowed_deny,
          EntryConfig.not_mem_allowed_deny_of_not_mem]
  · intro hR
    have hRe : R.isEmpty = false := by cases R <;> simp_all
    simp [hRe, EntryConfig.setRealm]

/-- The entry behind a valid pointer after the loop that remembers the answer: the
body of the loop was run on it once for each time the pointer is in the list. -/
theorem entry_rememberAll_count (res : Int) (H S R : QString) (ps : List Nat)
    (s : Service) (p : Nat) (hlt : p < s.entryCount) :
    (rememberAll res H S R ps s).entry p
      = (rememberEntry res H S R)^[ps.count p] (s.entry p) := by
  induction ps generalizing s with
  | nil => rfl
  | cons q rest ih =>
    simp only [rememberAll]
    rw [ih _ (by rw [Service.entryCount_modifyEntry]; exact hlt), Service.entry_modifyEntry]
    by_cases hpq : p = q
    · subst hpq
      simp only [true_and, hlt, if_true, List.count_cons_self]
      rw [Function.iterate_succ_apply]
    · have hqp : ¬ q = p := fun h => hpq h.symm
      simp [hpq, List.count_cons, hqp]

/-- C11: when the consent dialog is shown (some candidate is Unknown) and the user
answers with remember=true, the stored permission of every entry returned by the
search is rewritten, whatever its access was: the body of the remember loop is run on
it (once for each time the search returned it), after which, on accept, the host and
the non-empty submit-host are in the allowed hosts, on reject they are in the denied
hosts, and for a non-empty realm the stored realm is that realm; entries the search
did not return are untouched. With remember=false the state is left as it was. -/
theorem findMatchingEntries_remember_rewrites_all (lib : Lib) (s : Service)
    (dlg : DialogAnswer) (id url submitUrl realm : QString)
    (h : ∃ p ∈ searchEntries lib s url,
      checkAccess (s.entry p) (lib.host url) (lib.host submitUrl) realm = Access.Unknown) :
    (findMatchingEntries lib s dlg id url submitUrl realm).asked
        = some (candidatesWith lib s url submitUrl realm Access.Unknown)
    ∧ (dlg.remember = true →
        (∀ p ∈ searchEntries lib s url,
          (findMatchingEntries lib s dlg id url submitUrl realm).service.entry p
              = (rememberEntry dlg.res (lib.host url) (lib.host submitUrl) realm)^[
                  (searchEntries lib s url).count p] (s.entry p)
          ∧ ∃ c, EntryConfig.load
                ((findMatchingEntries lib s dlg id url submitUrl realm).service.entry p) = some c
              ∧ (dlg.res = QDialog.Accepted →
                  lib.host url ∈ c.allowedHosts
                  ∧ (lib.host submitUrl ≠ [] → lib.host submitUrl ∈ c.allowedHosts))
              ∧ (dlg.res = QDialog.Rejected →
                  lib.host url ∈ c.deniedHosts
                  ∧ (lib.host submitUrl ≠ [] → lib.host submitUrl ∈ c.deniedHosts))
              ∧ (realm ≠ [] → c.realm = realm))
        ∧ ∀ p, p ∉ searchEntries lib s url →
            (findMatchingEntries lib s dlg id url submitUrl realm).service.entry p = s.entry p)
    ∧ (dlg.remember = false →
        (findMatchingEntries lib s dlg id url submitUrl realm).service = s) := by
  have hne := candidatesWith_unknown_ne_nil lib s url submitUrl realm h
  rw [findMatchingEntries_eq]
  simp only [hne, Bool.false_eq_true, if_false]
  refine ⟨trivial, ?_, ?_⟩
  · intro hrem
    simp only [hrem, if_true]
    constructor
    · intro p hp
      have hvalid := Service.searchEntries_valid lib s url p hp
      refine ⟨entry_rememberAll_count _ _ _ _ _ s p hvalid, ?_⟩
      obtain ⟨e, he⟩ := Service.entry_rememberAll_of_mem dlg.res (lib.host url)
        (lib.host submitUrl) realm (searchEntries lib s url) s p hp hvalid
      rw [he]
      obtain ⟨c, hc, ha, hr, hrealm⟩ :=
        rememberEntry_load dlg.res (lib.host url) (lib.host submitUrl) realm e
      exact ⟨c, hc, ha, fun hres => ⟨(hr hres).1, (hr hres).2.1⟩, hrealm⟩
    · intro p hp
      exact Service.entry_rememberAll_of_not_mem _ _ _ _ _ s p hp
  · intro hrem
    simp [hrem]

/-- C11 at the vault with a Denied, an Allowed and an Unknown candidate: with
remember=true every one of the three is rewritten, with remember=false none. -/
theorem findMatchingEntries_remember_rewrites_all_witness :
    (∀ p ∈ searchEntries qtLib Example.mixedVault Example.pageUrl,
      ∃ c, EntryConfig.load
            ((findMatchingEntries qtLib Example.mixedVault
              { res := QDialog.Accepted, remember := true } []
              Example.pageUrl Example.formUrl (qs "realm")).service.entry p) = some c
          ∧ qtLib.host Example.pageUrl ∈ c.allowedHosts
          ∧ qtLib.host Example.formUrl ∈ c.allowedHosts
          ∧ c.realm = qs "realm")
    ∧ searchEntries qtLib Example.mixedVault Example.pageUrl = [0, 1, 2] := by
  refine ⟨?_, by decide⟩
  intro p hp
  obtain ⟨_, c, hc, ha, _, hr⟩ :=
    ((findMatchingEntries_remember_rewrites_all qtLib Example.mixedVault
      { res := QDialog.Accepted, remember := true } []
      Example.pageUrl Example.formUrl (qs "realm") ⟨2, by decide, by decide⟩).2.1 rfl).1 p hp
  exact ⟨c, hc, (ha rfl).1, (ha rfl).2 (by decide), hr (by decide)⟩

/-- C12: when the library refuses the registration of the first register call, the
second register call finds `m_callbackRef` at 0, skips `deregisterHotplugCallback`
and starts a second worker while the first is still in its loop: two workers are
running, and the library was never asked to deregister. When the first registration
succeeds, the second call stops the first worker before it starts its own. -/
theorem libusb_refused_registration_leaves_two_workers :
    (run [Call.register true false true true (-1) (-1),
          Call.register true true true true (-1) (-1)] {}).running = [0, 1]
    ∧ (run [Call.register true false true true (-1) (-1)] {}).running = [0]
    ∧ (run [Call.register true false true true (-1) (-1)] {}).m_callbackRef = 0
    ∧ (run [Call.register true false true true (-1) (-1)] {}).m_completed = false
    ∧ (run [Call.register true false true true (-1) (-1),
          Call.register true true true true (-1) (-1)] {}).usb.calls
        = [LibCall.init true,
           LibCall.registerCallback
             { handle := 1, events := 3, vendorId := -1, productId := -1 } false,
           LibCall.registerCallback
             { handle := 1, events := 3, vendorId := -1, productId := -1 } true]
    ∧ (run [Call.register true true true true (-1) (-1),
          Call.register true true true true (-1) (-1)] {}).running = [1] := by
  decide

/-! ### What `findMatchingEntries` returns -/

theorem filter_kph_map_set (k : QString) (v : AttrValue) (l : List (QString × AttrValue))
    (hk : (qs "KPH: ").isPrefixOf k = false) :
    (l.map (fun kv => if kv.1 == k then (k, v) else kv)).filter
        (fun kv => (qs "KPH: ").isPrefixOf kv.1)
      = l.filter (fun kv => (qs "KPH: ").isPrefixOf kv.1) := by
  induction l with
  | nil => rfl
  | cons a l ih =>
    rw [List.map_cons]
    cases ha : (a.1 == k)
    · simp only [Bool.false_eq_true, if_false, List.filter_cons, ih]
    · have hak : a.1 = k := by simpa using ha
      simp only [if_true, List.filter_cons, hk, hak, Bool.false_eq_true, if_false, ih]

theorem prepareEntry_attrSet (e : Entry) (k : QString) (v : AttrValue)
    (hk : (qs "KPH: ").isPrefixOf k = false) :
    prepareEntry (e.attrSet k v) = prepareEntry e := by
  unfold Entry.attrSet prepareEntry
  cases hc : e.attrContains k
  · simp only [Bool.false_eq_true, if_false, List.filter_append, List.filter_cons, hk,
      List.filter_nil, List.append_nil]
  · simp only [if_true, filter_kph_map_set k v _ hk]

theorem prepareEntry_rememberEntry (res : Int) (H S R : QString) (e : Entry) :
    prepareEntry (rememberEntry res H S R e) = prepareEntry e := by
  unfold rememberEntry EntryConfig.save
  exact prepareEntry_attrSet e _ _ (by decide)

theorem prepareEntry_rememberAll (res : Int) (H S R : QString) (ps : List Nat) (s : Service)
    (p : Nat) :
    prepareEntry ((rememberAll res H S R ps s).entry p) = prepareEntry (s.entry p) := by
  induction ps generalizing s with
  | nil => rfl
  | cons q rest ih =>
    simp only [rememberAll]
    rw [ih, Service.entry_modifyEntry]
    split_ifs with h
    · rw [prepareEntry_rememberEntry, h.1]
    · rfl

/-- C14: the list `findMatchingEntries` returns is the prepared Allowed candidates in
search order, followed, when some candidate is Unknown and the user accepts the
dialog, by the prepared form of every entry of the search in search order; its length
is the number of Allowed candidates plus, in that case, the number of search
results. -/
theorem findMatchingEntries_result (lib : Lib) (s : Service) (dlg : DialogAnswer)
    (id url submitUrl realm : QString) :
    (findMatchingEntries lib s dlg id url submitUrl realm).result
        = (candidatesWith lib s url submitUrl realm Access.Allowed).map
              (fun p => prepareEntry (s.entry p))
          ++ (if (candidatesWith lib s url submitUrl realm Access.Unknown) ≠ []
                ∧ dlg.res = QDialog.Accepted then
                (searchEntries lib s url).map (fun p => prepareEntry (s.entry p))
              else [])
    ∧ (findMatchingEntries lib s dlg id url submitUrl realm).result.length
        = (candidatesWith lib s url submitUrl realm Access.Allowed).length
          + (if (candidatesWith lib s url submitUrl realm Access.Unknown) ≠ []
                ∧ dlg.res = QDialog.Accepted then
                (searchEntries lib s url).length
              else 0)
    ∧ (findMatchingEntries lib s dlg id url submitUrl realm).result
        = (candidatesWith lib s url submitUrl realm Access.Allowed).map
              (fun p => prepareEntry (s.entry p))
          ++ (if (candidatesWith lib s url submitUrl realm Access.Unknown) ≠ []
                ∧ dlg.res = QDialog.Accepted then
                (searchEntries lib s url).map (fun p => prepareEntry
                  ((findMatchingEntries lib s dlg id url submitUrl realm).service.entry p))
              else []) := by
  have key : (findMatchingEntries lib s dlg id url submitUrl realm).result
      = (candidatesWith lib s url submitUrl realm Access.Allowed).map
            (fun p => prepareEntry (s.entry p))
        ++ (if (candidatesWith lib s url submitUrl realm Access.Unknown) ≠ []
              ∧ dlg.res = QDialog.Accepted then
              (searchEntries lib s url).map (fun p => prepareEntry (s.entry p))
            else []) := by
    rw [findMatchingEntries_eq]
    cases hu : candidatesWith lib s url submitUrl realm Access.Unknown with
    | nil => simp
    | cons a l =>
      simp only [List.isEmpty_cons, Bool.false_eq_true, if_false, ne_eq, not_false_eq_true,
        true_and, reduceCtorEq]
      by_cases hres : dlg.res = QDialog.Accepted
      · simp only [hres, if_true]
        congr 1
        apply List.map_congr_left
        intro p _
        cases dlg.remember
        · rfl
        · simp only [if_true]
          exact prepareEntry_rememberAll _ _ _ _ _ s p
      · simp [hres]
  have hserv : ∀ p, prepareEntry
      ((findMatchingEntries lib s dlg id url submitUrl realm).service.entry p)
      = prepareEntry (s.entry p) := by
    intro p
    rw [findMatchingEntries_eq]
    split_ifs <;> first | rfl | exact prepareEntry_rememberAll _ _ _ _ _ s p
  refine ⟨key, ?_, ?_⟩
  · rw [key, List.length_append, List.length_map]
    split_ifs <;> simp
  · rw [key]
    congr 1
    split_ifs
    · apply List.map_congr_left
      intro p _
      exact (hserv p).symm
    · rfl

/-! ### The next identical request -/

theorem core_attrSet (e : Entry) (k : QString) (v : AttrValue) :
    (e.attrSet k v).core = e.core := by
  unfold Entry.attrSet Entry.core
  split_ifs <;> rfl

theorem core_rememberEntry (res : Int) (H S R : QString) (e : Entry) :
    (rememberEntry res H S R e).core = e.core := by
  unfold rememberEntry EntryConfig.save
  exact core_attrSet e _ _

theorem map_core_set (l : List Entry) (q : Nat) (x : Entry)
    (hx : x.core = (l.getD q {}).core) : (l.set q x).map Entry.core = l.map Entry.core := by
  induction l generalizing q with
  | nil => rfl
  | cons a l ih =>
    cases q with
    | zero =>
      simp only [List.set_cons_zero, List.map_cons]
      rw [hx]
      rfl
    | succ n =>
      simp only [List.set_cons_succ, List.map_cons]
      rw [ih n (by simpa using hx)]

/-- The state after the remember loop: the database differs only in the attributes of
its entries. -/
theorem rememberAll_shape (res : Int) (H S R : QString) (ps : List Nat) :
    ∀ (s : Service) (db : Database), s.currentDatabase = some db →
      ∃ es, rememberAll res H S R ps s = s.setDatabase { db with entries := es }
        ∧ es.map Entry.core = db.entries.map Entry.core := by
  induction ps with
  | nil =>
    intro s db hdb
    exact ⟨db.entries, (setDatabase_self s db hdb).symm, rfl⟩
  | cons q rest ih =>
    intro s db hdb
    simp only [rememberAll]
    rw [modifyEntry_eq_setDatabase s db q _ hdb]
    obtain ⟨es, e1, e2⟩ := ih _ _ (Service.currentDatabase_setDatabase s db
      (db.modifyEntry q (rememberEntry res H S R)) hdb)
    refine ⟨es, ?_, ?_⟩
    · rw [e1, setDatabase_setDatabase]
      rfl
    · rw [e2]
      unfold Database.modifyEntry
      simp only
      exact map_core_set _ _ _ (core_rememberEntry _ _ _ _ _)

theorem entry_core_of_map (db : Database) (es : List Entry)
    (h : es.map Entry.core = db.entries.map Entry.core) (p : Nat) :
    (Database.entry { db with entries := es } p).core = (db.entry p).core := by
  unfold Database.entry
  simp only
  have h1 : (es.map Entry.core).getD p (Entry.core {}) = (es.getD p {}).core :=
    List.getD_map es {} Entry.core
  have h2 : (db.entries.map Entry.core).getD p (Entry.core {}) = (db.entries.getD p {}).core :=
    List.getD_map db.entries {} Entry.core
  rw [← h1, ← h2, h]

theorem matchesHostname_of_core (lib : Lib) (db db1 : Database) (h : QString) (p : Nat)
    (hc : Entry.core (db1.entry p) = Entry.core (db.entry p)) :
    matchesHostname lib db1 h p = matchesHostname lib db h p := by
  have ht : (db1.entry p).title = (db.entry p).title := by
    have := congrArg Entry.title hc
    simpa only [Entry.core] using this
  have hu : (db1.entry p).url = (db.entry p).url := by
    have := congrArg Entry.url hc
    simpa only [Entry.core] using this
  unfold matchesHostname
  simp only [ht, hu]

theorem searchLoop_of_core (lib : Lib) (hlib : lib.IgnoresAttributes) (db : Database)
    (es : List Entry) (h : es.map Entry.core = db.entries.map Entry.core) (fuel : Nat) :
    ∀ (hostname : QString) (entries : List Nat) (tried : List QString),
      searchLoop lib { db with entries := es } fuel hostname entries tried
        = searchLoop lib db fuel hostname entries tried := by
  have hpass : ∀ hostname entries,
      searchPass lib { db with entries := es } hostname entries
        = searchPass lib db hostname entries := by
    intro hostname entries
    unfold searchPass
    rw [hlib db es hostname h]
    congr 1
    apply List.filter_congr
    intro p _
    exact matchesHostname_of_core lib db _ hostname p (entry_core_of_map db es h p)
  induction fuel with
  | zero => intro _ _ _; rfl
  | succ n ih =>
    intro hostname entries tried
    simp only [searchLoop, hpass, ih]

theorem searchEntries_of_core (lib : Lib) (hlib : lib.IgnoresAttributes) (s : Service)
    (db : Database) (es : List Entry) (hdb : s.currentDatabase = some db)
    (h : es.map Entry.core = db.entries.map Entry.core) (text : QString) :
    searchEntries lib (s.setDatabase { db with entries := es }) text
      = searchEntries lib s text := by
  obtain ⟨w, hw, hd⟩ := widget_of_currentDatabase s db hdb
  unfold searchEntries searchEntriesTraced Service.setDatabase
  simp only [hw, hd]
  have hroot : Database.rootGroup { db with entries := es } = db.rootGroup := rfl
  rw [hroot]
  cases db.rootGroup with
  | none => rfl
  | some g =>
    simp only
    rw [searchLoop_of_core lib hlib db es h]

theorem groupSearch_ignores_attributes : qtLib.IgnoresAttributes := by
  intro db es text h
  show groupSearch { db with entries := es } text = groupSearch db text
  have hlen : es.length = db.entries.length := by
    have := congrArg List.length h
    simpa using this
  have hcore := entry_core_of_map db es h
  have hgroup : ∀ p, (Database.entry { db with entries := es } p).group = (db.entry p).group := by
    intro p
    have := congrArg Entry.group (hcore p)
    simpa only [Entry.core] using this
  have htitle : ∀ p, (Database.entry { db with entries := es } p).title = (db.entry p).title := by
    intro p
    have := congrArg Entry.title (hcore p)
    simpa only [Entry.core] using this
  have hurl : ∀ p, (Database.entry { db with entries := es } p).url = (db.entry p).url := by
    intro p
    have := congrArg Entry.url (hcore p)
    simpa only [Entry.core] using this
  have hwalk : Database.entriesRecursive { db with entries := es } = db.entriesRecursive := by
    unfold Database.entriesRecursive Database.groupsRecursive Database.entriesOf
    simp only [hlen, hgroup]
  unfold groupSearch
  rw [hwalk]
  simp only [htitle, hurl]

theorem checkAccess_of_load (e : Entry) (c : EntryConfig) (H S R : QString)
    (h : EntryConfig.load e = some c) :
    checkAccess e H S R
      = if c.isAllowed H && (S.isEmpty || c.isAllowed S) then Access.Allowed
        else if c.isDenied H || (!S.isEmpty && c.isDenied S) then Access.Denied
        else if !R.isEmpty && c.realm != R then Access.Denied
        else Access.Unknown := by
  unfold checkAccess
  rw [h]

theorem checkAccess_rememberEntry_accepted (H S R : QString) (e : Entry) :
    checkAccess (rememberEntry QDialog.Accepted H S R e) H S R = Access.Allowed := by
  obtain ⟨c, hc, ha, _, _⟩ := rememberEntry_load QDialog.Accepted H S R e
  rw [checkAccess_of_load _ c H S R hc]
  have h1 : c.isAllowed H = true := by simpa [EntryConfig.isAllowed] using (ha rfl).1
  have h2 : (S.isEmpty || c.isAllowed S) = true := by
    cases S with
    | nil => rfl
    | cons a l =>
      have := (ha rfl).2 (by simp)
      simp [EntryConfig.isAllowed, this]
  simp [h1, h2]

theorem checkAccess_rememberEntry_rejected (H S R : QString) (e : Entry) :
    checkAccess (rememberEntry QDialog.Rejected H S R e) H S R = Access.Denied := by
  obtain ⟨c, hc, _, hr, _⟩ := rememberEntry_load QDialog.Rejected H S R e
  rw [checkAccess_of_load _ c H S R hc]
  have h1 : c.isAllowed H = false := by simpa [EntryConfig.isAllowed] using (hr rfl).2.2
  have h2 : c.isDenied H = true := by simpa [EntryConfig.isDenied] using (hr rfl).1
  simp [h1, h2]

theorem currentDatabase_of_searchEntries (lib : Lib) (s : Service) (text : QString) (p : Nat)
    (hp : p ∈ searchEntries lib s text) : ∃ db, s.currentDatabase = some db := by
  have hlt := Service.searchEntries_valid lib s text p hp
  unfold Service.entryCount at hlt
  cases hdb : s.currentDatabase with
  | none => rw [hdb] at hlt; simp at hlt
  | some db => exact ⟨db, rfl⟩

/-- C13: when the search of the library does not read the attributes, a request for
which the dialog was shown and answered with remember=true is honoured by the next
identical request on the state it left: the search returns the same entries, after
accept `checkAccess` is Allowed for every one of them and the request returns them
all without a dialog, after reject `checkAccess` is Denied for every one of them and
the request returns the empty list without a dialog. -/
theorem remembered_answer_is_honoured (lib : Lib) (hlib : lib.IgnoresAttributes)
    (s : Service) (dlg dlg2 : DialogAnswer) (id url submitUrl realm : QString)
    (h : ∃ p ∈ searchEntries lib s url,
      checkAccess (s.entry p) (lib.host url) (lib.host submitUrl) realm = Access.Unknown)
    (hrem : dlg.remember = true)
    (s1 : Service) (hs1 : s1 = (findMatchingEntries lib s dlg id url submitUrl realm).service) :
    (findMatchingEntries lib s dlg id url submitUrl realm).asked ≠ none
    ∧ searchEntries lib s1 url = searchEntries lib s url
    ∧ (dlg.res = QDialog.Accepted →
        (∀ p ∈ searchEntries lib s url,
          checkAccess (s1.entry p) (lib.host url) (lib.host submitUrl) realm = Access.Allowed)
        ∧ findMatchingEntries lib s1 dlg2 id url submitUrl realm
            = { result := (searchEntries lib s url).map (fun p => prepareEntry (s1.entry p))
                service := s1
                asked := none })
    ∧ (dlg.res = QDialog.Rejected →
        (∀ p ∈ searchEntries lib s url,
          checkAccess (s1.entry p) (lib.host url) (lib.host submitUrl) realm = Access.Denied)
        ∧ findMatchingEntries lib s1 dlg2 id url submitUrl realm
            = { result := [], service := s1, asked := none }) := by
  have hne := candidatesWith_unknown_ne_nil lib s url submitUrl realm h
  have hserv : s1 = rememberAll dlg.res (lib.host url) (lib.host submitUrl) realm
      (searchEntries lib s url) s := by
    rw [hs1, findMatchingEntries_eq]
    simp only [hne, Bool.false_eq_true, if_false, hrem, if_true]
  have hasked : (findMatchingEntries lib s dlg id url submitUrl realm).asked ≠ none := by
    rw [findMatchingEntries_eq]
    simp only [hne, Bool.false_eq_true, if_false]
    simp
  obtain ⟨p0, hp0, _⟩ := h
  obtain ⟨db, hdb⟩ := currentDatabase_of_searchEntries lib s url p0 hp0
  obtain ⟨es, hes, hcore⟩ := rememberAll_shape dlg.res (lib.host url) (lib.host submitUrl) realm
    (searchEntries lib s url) s db hdb
  have hsearch : searchEntries lib s1 url = searchEntries lib s url := by
    rw [hserv, hes]
    exact searchEntries_of_core lib hlib s db es hdb hcore url
  have hentry : ∀ p ∈ searchEntries lib s url, ∃ e,
      s1.entry p = rememberEntry dlg.res (lib.host url) (lib.host submitUrl) realm e := by
    intro p hp
    rw [hserv]
    exact Service.entry_rememberAll_of_mem _ _ _ _ _ s p hp
      (Service.searchEntries_valid lib s url p hp)
  refine ⟨hasked, hsearch, ?_, ?_⟩
  · intro hres
    have hall : ∀ p ∈ searchEntries lib s url,
        checkAccess (s1.entry p) (lib.host url) (lib.host submitUrl) realm = Access.Allowed := by
      intro p hp
      obtain ⟨e, he⟩ := hentry p hp
      rw [he, hres]
      exact checkAccess_rememberEntry_accepted _ _ _ e
    refine ⟨hall, ?_⟩
    have hU : candidatesWith lib s1 url submitUrl realm Access.Unknown = [] := by
      unfold candidatesWith
      rw [hsearch, List.filter_eq_nil_iff]
      intro p hp
      rw [hall p hp]
      simp
    have hA : candidatesWith lib s1 url submitUrl realm Access.Allowed
        = searchEntries lib s url := by
      unfold candidatesWith
      rw [hsearch, List.filter_eq_self]
      intro p hp
      rw [hall p hp]
      simp
    rw [findMatchingEntries_eq, hU, hA]
    rfl
  · intro hres
    have hall : ∀ p ∈ searchEntries lib s url,
        checkAccess (s1.entry p) (lib.host url) (lib.host submitUrl) realm = Access.Denied := by
      intro p hp
      obtain ⟨e, he⟩ := hentry p hp
      rw [he, hres]
      exact checkAccess_rememberEntry_rejected _ _ _ e
    refine ⟨hall, ?_⟩
    have hU : candidatesWith lib s1 url submitUrl realm Access.Unknown = [] := by
      unfold candidatesWith
      rw [hsearch, List.filter_eq_nil_iff]
      intro p hp
      rw [hall p hp]
      simp
    have hA : candidatesWith lib s1 url submitUrl realm Access.Allowed = [] := by
      unfold candidatesWith
      rw [hsearch, List.filter_eq_nil_iff]
      intro p hp
      rw [hall p hp]
      simp
    rw [findMatchingEntries_eq, hU, hA]
    rfl

/-- C13 at the vault with a Denied, an Allowed and an Unknown candidate, the dialog
accepted with remember=true: the repeated request asks nothing and returns the three
entries. -/
theorem remembered_answer_is_honoured_witness :
    (findMatchingEntries qtLib
        (findMatchingEntries qtLib Example.mixedVault
          { res := QDialog.Accepted, remember := true } []
          Example.pageUrl Example.formUrl []).service
        { res := QDialog.Rejected, remember := false } []
        Example.pageUrl Example.formUrl []).asked = none
    ∧ (findMatchingEntries qtLib
        (findMatchingEntries qtLib Example.mixedVault
          { res := QDialog.Accepted, remember := true } []
          Example.pageUrl Example.formUrl []).service
        { res := QDialog.Rejected, remember := false } []
        Example.pageUrl Example.formUrl []).result.length = 3 := by
  have h := ((remembered_answer_is_honoured qtLib groupSearch_ignores_attributes
    Example.mixedVault { res := QDialog.Accepted, remember := true }
    { res := QDialog.Rejected, remember := false } []
    Example.pageUrl Example.formUrl [] ⟨2, by decide, by decide⟩ rfl _ rfl).2.2.1 rfl).2
  rw [h]
  exact ⟨rfl, by decide⟩

end KeePassHttp
